import Mathlib

/-!
Verification development for the CJSON repository (a compact, indentation-sensitive
serialization format with a hand-rolled tokenizer, a recursive-descent parser producing
an AST, an encoder with array-format heuristics, and a schema validator).

The definitions below are a shallow embedding of the TypeScript sources:
  - src/parser/tokenizer.ts   (namespace CJSON.Tokenizer)
  - src/parser/parser.ts      (namespace CJSON.Parser)
  - src/parser/utils.ts       (checkArrayUniformity)
  - src/ast/nodes.ts, src/ast/converter.ts
  - src/encoder/formatter.ts, src/encoder/utils.ts, src/encoder/encoder.ts
  - src/validator/validator.ts, src/validator/types.ts
Strings are modelled as `List Char`.  JavaScript numbers are modelled exactly as scaled
decimal integers (`JSNumber`), which represents every numeric literal exactly; IEEE-754
rounding of extreme literals is abstracted away (no claim below depends on it).
Imperative loops and recursion are modelled with an explicit fuel parameter; running out
of fuel models non-termination of the corresponding source loop.  Mutable parse state is
modelled by threading an explicit context (the not-yet-consumed token list plus the
current line/column), which is sound because the source parser only ever moves its token
index forward.
-/

namespace CJSON

/-- Token kinds produced by the tokenizer (src/parser/types.ts, enum TokenType). -/
inductive TokenType where
  | KEY
  | VALUE
  | COLON
  | COMMA
  | DASH
  | BRACKET_OPEN
  | BRACKET_CLOSE
  | INDENT
  | COMMENT
  | NEWLINE
  | EOF
deriving DecidableEq, Repr

/-- A single token (src/parser/types.ts, interface Token). -/
structure Token where
  type : TokenType
  value : List Char
  line : Nat
  column : Nat
deriving DecidableEq, Repr

/-- Error category tags (src/errors/errors.ts, enum ErrorCode).  `FUEL_EXHAUSTED` is an
artifact of the embedding only: it is returned when the fuel that models a source-level
loop runs out, i.e. it models divergence of the source program, and is never produced on
any input on which the source terminates. -/
inductive ErrorCode where
  | UNEXPECTED_TOKEN
  | UNEXPECTED_EOF
  | MISSING_COLON
  | MISSING_KEY
  | INVALID_SYNTAX
  | UNTERMINATED_STRING
  | INVALID_NUMBER
  | EMPTY_INPUT
  | UNSUPPORTED_TYPE
  | CIRCULAR_REFERENCE
  | INVALID_VALUE
  | MISSING_REQUIRED_PROPERTY
  | TYPE_MISMATCH
  | NON_UNIFORM_ARRAY
  | INVALID_STRUCTURE
  | FUEL_EXHAUSTED
deriving DecidableEq, Repr

/-- A parse error (src/errors/errors.ts, class ParseError): message, 1-based position,
category code (defaulting to INVALID_SYNTAX in the source constructor) and optional
expected/actual/suggestion decorations. -/
structure ParseErr where
  message : String
  line : Nat
  column : Nat
  code : ErrorCode := .INVALID_SYNTAX
  expected : Option String := none
  actual : Option String := none
  suggestion : Option String := none
deriving DecidableEq, Repr

/-- The error used to signal fuel exhaustion (source-level divergence). -/
def fuelErr : ParseErr := ⟨"embedding out of fuel", 0, 0, .FUEL_EXHAUSTED, none, none, none⟩

/-- Left brace character, written via its code point. -/
def lbrace : Char := Char.ofNat 123

/-- Right brace character, written via its code point. -/
def rbrace : Char := Char.ofNat 125

/-- Single quote character, written via its code point. -/
def squote : Char := Char.ofNat 39

namespace Tokenizer

/-- Characters treated as same-line whitespace by the tokenizer (space and tab). -/
def isBlank (c : Char) : Bool := c == ' ' || c == '\t'

/-- Characters that terminate an unquoted value (tokenizer.ts, readUnquotedValue). -/
def isBreak (c : Char) : Bool :=
  c == ':' || c == ',' || c == '[' || c == ']' || c == '#' || c == '\n' || c == ' ' || c == '\t'

/-- Indentation width of a run of spaces/tabs: each space counts 1, each tab counts 2
(tokenizer.ts, skipWhitespace). -/
def indentWidthOf (blanks : List Char) : Nat :=
  blanks.foldl (fun acc c => acc + (if c = '\t' then 2 else 1)) 0

/-- Escape-sequence mapping inside quoted strings (tokenizer.ts, readQuotedString):
backslash-n/t/r map to control characters, any other escaped character maps to itself
(which also covers backslash and the quote characters). -/
def escapeMapChar (c : Char) : Char :=
  if c = 'n' then '\n'
  else if c = 't' then '\t'
  else if c = 'r' then '\r'
  else c

/-- Body of readQuotedString (tokenizer.ts): consumes characters until the matching,
unescaped closing quote; an exhausted input is the "Unterminated string" parse error
reported at the start position of the string.  Returns the string value, the line and
column after the closing quote, and the remaining input. -/
def readQuoted (q : Char) (startLine startCol : Nat) :
    Nat → Nat → Bool → List Char → List Char →
    Except ParseErr (List Char × Nat × Nat × List Char)
  | _, _, _, _, [] =>
    .error { message := "Unterminated string", line := startLine, column := startCol }
  | line, col, escaped, acc, c :: rest =>
    let line2 := if c = '\n' then line + 1 else line
    let col2 := if c = '\n' then 1 else col + 1
    if escaped then readQuoted q startLine startCol line2 col2 false (acc ++ [escapeMapChar c]) rest
    else if c = '\\' then readQuoted q startLine startCol line2 col2 true acc rest
    else if c = q then .ok (acc, line2, col2, rest)
    else readQuoted q startLine startCol line2 col2 false (acc ++ [c]) rest

/-- Drops characters up to and including the first occurrence of `ch`; `none` when `ch`
does not occur (models String.indexOf returning -1). -/
def splitAfterChar (ch : Char) (l : List Char) : Option (List Char) :=
  match l.dropWhile (fun c => !(c == ch)) with
  | _ :: after => some after
  | [] => none

/-- Skips decorator groups `[...]` and braced field groups attached to a candidate key,
plus blanks between groups (tokenizer.ts, skipKeyDecorators); when a group is unclosed
the position of its opening bracket is returned unchanged. -/
def skipKeyDecorators : Nat → List Char → List Char
  | 0, cs => cs
  | fuel + 1, cs =>
    match cs with
    | [] => cs
    | c :: rest =>
      if c = '[' then
        match splitAfterChar ']' rest with
        | some after => skipKeyDecorators fuel (after.dropWhile isBlank)
        | none => cs
      else if c = lbrace then
        match splitAfterChar rbrace rest with
        | some after => skipKeyDecorators fuel (after.dropWhile isBlank)
        | none => cs
      else cs

/-- After reading an unquoted run, decides KEY versus VALUE: look ahead past blanks and
any decorator suffix; the run is a KEY exactly when the next character is a colon
(tokenizer.ts, end of main loop). -/
def looksLikeKey (rest : List Char) : Bool :=
  let j := rest.dropWhile isBlank
  let j2 := skipKeyDecorators (j.length + 1) j
  j2.head? == some ':'

/-- Decides whether a dash starts a numeric literal: look ahead past spaces/tabs in the
input following the dash; true exactly when the next character there is a decimal digit
(tokenizer.ts, dash handling). -/
def dashStartsNumber (afterDash : List Char) : Bool :=
  match (afterDash.dropWhile isBlank).head? with
  | some c => c.isDigit
  | none => false

/-- Main tokenizer loop (tokenizer.ts, tokenize): single pass over the characters,
tracking 1-based line/column, emitting INDENT for same-line space/tab runs (a run whose
line ends immediately is swallowed together with its newline), NEWLINE, the punctuation
tokens, DASH (with numeric-literal lookahead), COMMENT, quoted VALUE, and unquoted
KEY/VALUE runs, then a final EOF token. -/
def tokenizeLoop : Nat → Nat → Nat → List Char → Except ParseErr (List Token)
  | 0, _, _, _ => .error fuelErr
  | _ + 1, line, col, [] => .ok [{ type := .EOF, value := [], line := line, column := col }]
  | fuel + 1, line, col, c :: cs =>
    if isBlank c then
      let blanks := (c :: cs).takeWhile isBlank
      let rest := (c :: cs).dropWhile isBlank
      match rest with
      | '\n' :: r2 => tokenizeLoop fuel (line + 1) 1 r2
      | _ =>
        let width := indentWidthOf blanks
        (tokenizeLoop fuel line (col + blanks.length) rest).map
          (fun ts =>
            if width > 0 then
              { type := .INDENT, value := List.replicate width ' ', line := line,
                  column := col } :: ts
            else ts)
    else if c = '\n' then
      (tokenizeLoop fuel (line + 1) 1 cs).map
        (fun ts => { type := .NEWLINE, value := ['\n'], line := line, column := col } :: ts)
    else if c = ':' then
      (tokenizeLoop fuel line (col + 1) cs).map
        (fun ts => { type := .COLON, value := [':'], line := line, column := col } :: ts)
    else if c = ',' then
      (tokenizeLoop fuel line (col + 1) cs).map
        (fun ts => { type := .COMMA, value := [','], line := line, column := col } :: ts)
    else if c = '-' && !(dashStartsNumber cs) then
      let blanks := cs.takeWhile isBlank
      let rest := cs.dropWhile isBlank
      (tokenizeLoop fuel line (col + 1 + blanks.length) rest).map
        (fun ts => { type := .DASH, value := ['-'], line := line, column := col } :: ts)
    else if c = '[' then
      (tokenizeLoop fuel line (col + 1) cs).map
        (fun ts => { type := .BRACKET_OPEN, value := ['['], line := line, column := col } :: ts)
    else if c = ']' then
      (tokenizeLoop fuel line (col + 1) cs).map
        (fun ts => { type := .BRACKET_CLOSE, value := [']'], line := line, column := col } :: ts)
    else if c = '#' then
      let txt := cs.takeWhile (fun x => !(x == '\n'))
      let rest := cs.dropWhile (fun x => !(x == '\n'))
      (tokenizeLoop fuel line (col + 1 + txt.length) rest).map
        (fun ts => { type := .COMMENT, value := txt, line := line, column := col } :: ts)
    else if c = '"' || c = squote then
      match readQuoted c line col line (col + 1) false [] cs with
      | .error e => .error e
      | .ok (val, line2, col2, rest) =>
        (tokenizeLoop fuel line2 col2 rest).map
          (fun ts => { type := .VALUE, value := val, line := line2, column := col } :: ts)
    else
      let value := (c :: cs).takeWhile (fun x => !(isBreak x))
      let rest := (c :: cs).dropWhile (fun x => !(isBreak x))
      if value.length > 0 then
        let kind := if looksLikeKey rest then TokenType.KEY else TokenType.VALUE
        (tokenizeLoop fuel line (col + value.length) rest).map
          (fun ts => { type := kind, value := value, line := line, column := col } :: ts)
      else
        tokenizeLoop fuel line col rest

/-- Tokenizes an input (tokenizer.ts, tokenize).  Every loop iteration of the source
consumes at least one character, so `length + 1` fuel always suffices. -/
def tokenize (input : List Char) : Except ParseErr (List Token) :=
  tokenizeLoop (input.length + 1) 1 1 input

end Tokenizer

/-- A JavaScript number, modelled exactly as a scaled decimal: the value denoted is
`mant * 10 ^ dexp`.  Every numeric literal of the format is represented exactly; the
rounding a literal would undergo when converted to an IEEE-754 double is abstracted
away (no claim in this development depends on it). -/
structure JSNumber where
  mant : Int
  dexp : Int
deriving DecidableEq, Repr

/-- Primitive payload of a PrimitiveNode (src/ast/nodes.ts: string, number or boolean). -/
inductive PrimValue where
  | s (v : List Char)
  | n (v : JSNumber)
  | b (v : Bool)
deriving DecidableEq, Repr

/-- The inferred primitive-type tag stored on a PrimitiveNode (src/ast/nodes.ts). -/
inductive PType where
  | string
  | number
  | boolean
deriving DecidableEq, Repr

/-- Array format tag (src/ast/nodes.ts, ArrayNode.format). -/
inductive ArrFormat where
  | inline
  | multiline
  | compact
deriving DecidableEq, Repr

/-- Fields shared by every AST node (src/ast/nodes.ts, interface BaseNode): a 1-based
source position and three optional comment slots. -/
structure NodeMeta where
  line : Nat
  column : Nat
  leadingComment : Option (List Char) := none
  inlineComment : Option (List Char) := none
  trailingComment : Option (List Char) := none
deriving DecidableEq, Repr

/-- The AST (src/ast/nodes.ts): a tagged union of object, array, primitive and null
nodes.  Object properties are an ordered association list mirroring the insertion order
of the source Map. -/
inductive AST where
  | objn (properties : List (List Char × AST)) (meta : NodeMeta)
  | arrn (items : List AST) (format : Option ArrFormat) (meta : NodeMeta)
  | prim (value : PrimValue) (primitiveType : PType) (quoted : Bool) (meta : NodeMeta)
  | nullv (meta : NodeMeta)

instance : Nonempty AST := ⟨.nullv { line := 0, column := 0 }⟩

/-- JS `Map.set` semantics on the ordered association list: replacing an existing key
keeps its original position, a new key is appended. -/
def mapSet (m : List (List Char × AST)) (k : List Char) (v : AST) :
    List (List Char × AST) :=
  if m.any (fun p => p.1 = k) then
    m.map (fun p => if p.1 = k then (k, v) else p)
  else m ++ [(k, v)]

/-- Updates the leadingComment slot of a node.  The source guards each such assignment
with a JS truthiness test, so an empty comment string is not attached. -/
def withLeading (node : AST) (c : Option (List Char)) : AST :=
  match c with
  | none => node
  | some v =>
    if v = [] then node
    else match node with
      | .objn ps m => .objn ps { m with leadingComment := some v }
      | .arrn is f m => .arrn is f { m with leadingComment := some v }
      | .prim p t q m => .prim p t q { m with leadingComment := some v }
      | .nullv m => .nullv { m with leadingComment := some v }

/-- Updates the inlineComment slot of a node, under the same truthiness guard. -/
def withInline (node : AST) (c : Option (List Char)) : AST :=
  match c with
  | none => node
  | some v =>
    if v = [] then node
    else match node with
      | .objn ps m => .objn ps { m with inlineComment := some v }
      | .arrn is f m => .arrn is f { m with inlineComment := some v }
      | .prim p t q m => .prim p t q { m with inlineComment := some v }
      | .nullv m => .nullv { m with inlineComment := some v }

namespace Parser

/-- Parse state (src/parser/types.ts, ParseContext): the source threads a token array
with a forward-moving index; here the not-yet-consumed suffix of the token list is kept,
together with the line/column of the most recently consumed token (updated only by
`consume`, as in the source). -/
structure Ctx where
  rest : List Token
  line : Nat
  column : Nat
deriving Repr

/-- Whether a token is whitespace for the parser (INDENT or NEWLINE). -/
def isWsTok (t : Token) : Bool := t.type == .INDENT || t.type == .NEWLINE

/-- parser.ts skipWhitespace: drop INDENT and NEWLINE tokens. -/
def skipWhitespaceT (ctx : Ctx) : Ctx :=
  { ctx with rest := ctx.rest.dropWhile isWsTok }

/-- parser.ts peek: the current token without consuming it. -/
def peekT (ctx : Ctx) : Option Token := ctx.rest.head?

/-- parser.ts consume: skip whitespace, then consume the current token if it has the
expected type (recording its position in the context); otherwise leave it (the
whitespace skip remains committed, as in the source). -/
def consumeT (expected : TokenType) (ctx : Ctx) : Option Token × Ctx :=
  let r := ctx.rest.dropWhile isWsTok
  match r with
  | t :: ts =>
    if t.type = expected then (some t, { rest := ts, line := t.line, column := t.column })
    else (none, { ctx with rest := r })
  | [] => (none, { ctx with rest := r })

/-- parser.ts isEOF: skip whitespace (committed, the source mutates the context), then
report whether the input is exhausted or at the EOF token. -/
def isEOFT (ctx : Ctx) : Bool × Ctx :=
  let c := skipWhitespaceT ctx
  match peekT c with
  | none => (true, c)
  | some t => (t.type == .EOF, c)

/-- Indentation of the upcoming line: NEWLINE tokens reset the count, INDENT tokens add
their width, anything else stops the scan (parser.ts getCurrentIndent and
measureIndentation, duplicated inline in the object and multi-line array loops). -/
def measureIndentAux : Nat → List Token → Nat
  | acc, t :: r =>
    if t.type == .NEWLINE then measureIndentAux 0 r
    else if t.type == .INDENT then measureIndentAux (acc + t.value.length) r
    else acc
  | acc, [] => acc

/-- Measured indentation of the upcoming line at the current position. -/
def measureIndentation (ctx : Ctx) : Nat := measureIndentAux 0 ctx.rest

/-- Summed width of the leading INDENT tokens only, stopping at the first other token
(the inline indent scan of parseCompactArrayRows and the afterNewlineIndent scan). -/
def indentOnly : List Token → Nat
  | t :: r => if t.type == .INDENT then t.value.length + indentOnly r else 0
  | [] => 0

/-- Literal text of a token when gluing a key suffix together (parser.ts
tokenToLiteral). -/
def tokenToLiteral (t : Token) : List Char :=
  match t.type with
  | .BRACKET_OPEN => ['[']
  | .BRACKET_CLOSE => [']']
  | .COMMA => [',']
  | _ => t.value

/-- Whitespace for JS String.trim (the whitespace and line-terminator characters of the
ECMAScript definition). -/
def jsIsWhitespace (c : Char) : Bool :=
  c == ' ' || c == '\t' || c == '\n' || c == '\r' ||
  c == Char.ofNat 0x0b || c == Char.ofNat 0x0c || c == Char.ofNat 0xa0 ||
  c == Char.ofNat 0x1680 || (0x2000 ≤ c.toNat && c.toNat ≤ 0x200a) ||
  c == Char.ofNat 0x2028 || c == Char.ofNat 0x2029 || c == Char.ofNat 0x202f ||
  c == Char.ofNat 0x205f || c == Char.ofNat 0x3000 || c == Char.ofNat 0xfeff

/-- JS String.trim on a character list. -/
def jsTrim (s : List Char) : List Char :=
  ((s.dropWhile jsIsWhitespace).reverse.dropWhile jsIsWhitespace).reverse

/-- Collects the raw key suffix up to the colon (parser.ts collectKeySuffix): INDENT
tokens are skipped, a NEWLINE or EOF aborts (leaving it unconsumed and reporting no
colon), any other token contributes its literal text.  Returns the suffix parts and the
colon token on success, plus the remaining tokens; the tokens walked over stay consumed
either way, and line/column are untouched (the source moves the index directly). -/
def collectKeySuffixAux :
    List Char → List Token → (Option (List Char × Token) × List Token)
  | parts, t :: r =>
    if t.type == .COLON then (some (parts, t), r)
    else if t.type == .INDENT then collectKeySuffixAux parts r
    else if t.type == .NEWLINE || t.type == .EOF then (none, t :: r)
    else collectKeySuffixAux (parts ++ tokenToLiteral t) r
  | _, [] => (none, [])

/-- parser.ts collectKeySuffix, on the context: the joined suffix is trimmed on
success and empty on failure. -/
def collectKeySuffix (ctx : Ctx) : (List Char × Option Token × Ctx) :=
  match collectKeySuffixAux [] ctx.rest with
  | (some (parts, colonTok), r) => (jsTrim parts, some colonTok, { ctx with rest := r })
  | (none, r) => ([], none, { ctx with rest := r })

/-- Header of a compact array declaration (parser.ts, interface CompactArrayHeader). -/
structure CompactHeader where
  key : List Char
  length : Nat
  fields : Option (List (List Char)) := none
deriving DecidableEq, Repr

/-- Converts a nonempty digit run to a natural number (models Number.parseInt on a
digit-only string; overflow of parseInt to infinity beyond 1e308 is abstracted away). -/
def natOfDigits (ds : List Char) : Nat :=
  ds.foldl (fun acc c => acc * 10 + (c.toNat - 48)) 0

/-- Tries to match the tail of the compact-header pattern right after an opening
bracket: one or more digits, a closing bracket, then optionally a brace-enclosed
field segment that must reach the end of the key. -/
def tryHeaderSuffix (cs : List Char) : Option (List Char × Option (List Char)) :=
  let ds := cs.takeWhile Char.isDigit
  let r := cs.dropWhile Char.isDigit
  if ds = [] then none
  else match r with
    | ']' :: r2 =>
      match r2 with
      | [] => some (ds, none)
      | c :: r3 =>
        if c = lbrace then
          let seg := r3.takeWhile (fun x => !(x == rbrace))
          match r3.dropWhile (fun x => !(x == rbrace)) with
          | [closing] => if closing = rbrace then some (ds, some seg) else none
          | _ => none
        else none
    | _ => none

/-- Finds the lazy split of the full key demanded by the source regex
`(.+?)\[(\d+)\](braced fields)?$`: the shortest nonempty prefix followed by a bracketed
digit group (and optional braced field segment) that ends the string. -/
def findHeaderSplit : List Char → List Char →
    Option (List Char × List Char × Option (List Char))
  | _, [] => none
  | accRev, c :: rest =>
    if c = '[' ∧ accRev ≠ [] then
      match tryHeaderSuffix rest with
      | some (ds, fs) => some (accRev.reverse, ds, fs)
      | none => findHeaderSplit (c :: accRev) rest
    else findHeaderSplit (c :: accRev) rest

/-- parser.ts parseCompactArrayHeader: recognizes `name[N]` or a braced-fields variant
on the glued key, trimming the name; the field list (present only when the brace
segment is a nonempty string, matching the JS truthiness test) is split on commas,
trimmed and filtered of empties. -/
def parseCompactArrayHeader (baseKey suffix : List Char) : Option CompactHeader :=
  let fullKey := jsTrim (baseKey ++ suffix)
  match findHeaderSplit [] fullKey with
  | none => none
  | some (rawKey, ds, fs) =>
    let key := jsTrim rawKey
    if key = [] then none
    else
      let fields : Option (List (List Char)) :=
        match fs with
        | some seg =>
          if seg = [] then none
          else some (((seg.splitOn ',').map jsTrim).filter (fun f => f ≠ []))
        | none => none
      some { key := key, length := natOfDigits ds, fields := fields }

/-- parser.ts collectLeadingComments, inner scan: walks forward over whitespace,
collecting comment texts; after a comment, indentation is skipped and the scan
continues over a newline or a further comment, stopping before the first significant
token.  Returns the collected comment texts and the position reached. -/
def collectLeadingAux : Nat → List (List Char) → List Token →
    (List (List Char) × List Token)
  | 0, acc, ts => (acc, ts)
  | fuel + 1, acc, ts =>
    match ts with
    | [] => (acc, [])
    | t :: r =>
      if t.type == .INDENT || t.type == .NEWLINE then collectLeadingAux fuel acc r
      else if t.type == .COMMENT then
        let r2 := r.dropWhile (fun x => x.type == .INDENT)
        match r2 with
        | [] => (acc ++ [t.value], [])
        | t2 :: r3 =>
          if t2.type == .NEWLINE then collectLeadingAux fuel (acc ++ [t.value]) r3
          else if t2.type == .COMMENT then collectLeadingAux fuel (acc ++ [t.value]) r2
          else (acc ++ [t.value], r2)
      else (acc, ts)

/-- parser.ts collectLeadingComments: commits the scan only when at least one comment
was found, and joins the texts with newlines. -/
def collectLeadingComments (ctx : Ctx) : Option (List Char) × Ctx :=
  match collectLeadingAux (ctx.rest.length + 1) [] ctx.rest with
  | ([], _) => (none, ctx)
  | (comments, r) => (some (List.intercalate ['\n'] comments), { ctx with rest := r })

/-- parser.ts collectInlineComment: look past INDENT tokens for a COMMENT on the same
line; only a found comment commits the position. -/
def collectInlineComment (ctx : Ctx) : Option (List Char) × Ctx :=
  let r := ctx.rest.dropWhile (fun x => x.type == .INDENT)
  match r with
  | t :: ts => if t.type == .COMMENT then (some t.value, { ctx with rest := ts }) else (none, ctx)
  | [] => (none, ctx)

/-- parser.ts skipInlineSeparators: drop INDENT tokens. -/
def skipInlineSeparators (ctx : Ctx) : Ctx :=
  { ctx with rest := ctx.rest.dropWhile (fun x => x.type == .INDENT) }

/-- The comment-skipping loop after a key and its colon (parser.ts, the while loop in
parseObjectWithIndent that consumes COMMENT tokens and then INDENT tokens but not
newlines). -/
def skipCommentsThenIndents : Nat → Ctx → Ctx
  | 0, ctx => ctx
  | fuel + 1, ctx =>
    match ctx.rest with
    | t :: r =>
      if t.type == .COMMENT then
        skipCommentsThenIndents fuel
          { rest := r.dropWhile (fun x => x.type == .INDENT), line := t.line, column := t.column }
      else ctx
    | [] => ctx

/-- The numeric grammar of the parser (parser.ts parseNumber): an optional minus, one
or more digits, an optional fraction and an optional exponent, anchored at both ends. -/
def expTail (s : List Char) : Bool :=
  match s with
  | [] => true
  | c :: r =>
    (c == 'e' || c == 'E') &&
      (let r2 := match r with
        | x :: r3 => if x = '+' ∨ x = '-' then r3 else x :: r3
        | [] => []
      decide (r2 ≠ []) && r2.all Char.isDigit)

/-- Optional fraction then optional exponent, anchored at the end. -/
def fracExpTail (s : List Char) : Bool :=
  match s with
  | '.' :: r =>
    let ds := r.takeWhile Char.isDigit
    decide (ds ≠ []) && expTail (r.dropWhile Char.isDigit)
  | _ => expTail s

/-- Full match of the parser-side numeric grammar (the regex of parser.ts parseNumber,
which is also the grammar stated in the specification: digits may have leading
zeros). -/
def numericLoose (s : List Char) : Bool :=
  let s1 := match s with
    | '-' :: r => r
    | _ => s
  let ds := s1.takeWhile Char.isDigit
  decide (ds ≠ []) && fracExpTail (s1.dropWhile Char.isDigit)

/-- Full match of the encoder-side numeric grammar (encoder/utils.ts NUMERIC_PATTERN):
like the parser grammar but the integer part is a lone zero or starts with a nonzero
digit (no leading zeros). -/
def numericStrict (s : List Char) : Bool :=
  let s1 := match s with
    | '-' :: r => r
    | _ => s
  match s1 with
  | '0' :: r => fracExpTail r
  | c :: r => c.isDigit && fracExpTail (r.dropWhile Char.isDigit)
  | [] => false

/-- Exact decimal value of a numeric literal that matched the grammar: sign, integer
digits, optional fraction digits and optional signed exponent, represented as a scaled
decimal (models the exact value of JS Number on such literals; conversion is always
finite here, abstracting the overflow of literals beyond the double range). -/
def numberOfLiteral (s : List Char) : JSNumber :=
  let (neg, s1) : Bool × List Char := match s with
    | '-' :: r => (true, r)
    | _ => (false, s)
  let ds := s1.takeWhile Char.isDigit
  let r := s1.dropWhile Char.isDigit
  let (fs, r2) : List Char × List Char := match r with
    | '.' :: rr => (rr.takeWhile Char.isDigit, rr.dropWhile Char.isDigit)
    | _ => ([], r)
  let e : Int := match r2 with
    | _ :: rr =>
      match rr with
      | '+' :: q => (natOfDigits q : Int)
      | '-' :: q => -(natOfDigits q : Int)
      | q => (natOfDigits q : Int)
    | [] => 0
  let mant : Int := (natOfDigits (ds ++ fs) : Int)
  { mant := if neg then -mant else mant, dexp := e - (fs.length : Int) }

/-- parser.ts parseNumber: the numeric value when the text matches the grammar. -/
def parseNumber (s : List Char) : Option JSNumber :=
  if numericLoose s then some (numberOfLiteral s) else none

/-- Display tag of a token type, as interpolated into error messages by the source. -/
def tokenTag : TokenType → String
  | .KEY => "KEY"
  | .VALUE => "VALUE"
  | .COLON => "COLON"
  | .COMMA => "COMMA"
  | .DASH => "DASH"
  | .BRACKET_OPEN => "BRACKET_OPEN"
  | .BRACKET_CLOSE => "BRACKET_CLOSE"
  | .INDENT => "INDENT"
  | .COMMENT => "COMMENT"
  | .NEWLINE => "NEWLINE"
  | .EOF => "EOF"

/-- The unexpected-end-of-input error of parseValue (parser.ts). -/
def unexpectedEOFErr (ctx : Ctx) : ParseErr :=
  { message := "Unexpected end of input while parsing value", line := ctx.line,
      column := ctx.column, code := .UNEXPECTED_EOF,
      suggestion := some "Ensure all values are complete and properly terminated" }

/-- An empty ObjectNode at a given position (the parser produces these for keys whose
colon is followed by nothing deeper). -/
def emptyObj (line column : Nat) : AST := .objn [] { line := line, column := column }

/-- End of the parseObjectWithIndent loop (parser.ts): with no key ever seen the result
is the missing-key error at the current position, otherwise the accumulated object
positioned at the first key. -/
def finishObject (startTok : Option Token) (props : List (List Char × AST)) (ctx : Ctx) :
    Except ParseErr (AST × Ctx) :=
  match startTok with
  | none =>
    .error
      { message := "Expected object key", line := ctx.line, column := ctx.column,
        code := .MISSING_KEY, expected := some "key followed by colon",
        suggestion := some "Add at least one key-value pair, e.g., \"name: value\"" }
  | some st => .ok (.objn props { line := st.line, column := st.column }, ctx)

/-- End of parseMultiLineArray (parser.ts): with no dash ever seen the result is an
unexpected-token error, otherwise a multiline-format array positioned at the first
dash. -/
def finishMultiLine (startTok : Option Token) (items : List AST) (ctx : Ctx) :
    Except ParseErr (AST × Ctx) :=
  match startTok with
  | none =>
    .error
      { message := "Expected array item after dash", line := ctx.line,
        column := ctx.column, code := .UNEXPECTED_TOKEN,
        expected := some "array item value",
        suggestion := some "Add a value after the dash, e.g., \"- item\" or \"- key: value\"" }
  | some st => .ok (.arrn items (some .multiline) { line := st.line, column := st.column }, ctx)

/-- parser.ts parsePrimitive, value-combining loop: glue subsequent same-line VALUE
tokens with single spaces, skipping INDENT tokens, stopping at a NEWLINE (left
unconsumed), EOF or any other token. -/
def combineValues : List Char → List Token → (List Char × List Token)
  | acc, t :: r =>
    if t.type == .NEWLINE then (acc, t :: r)
    else if t.type == .INDENT then combineValues acc r
    else if t.type == .VALUE then combineValues (acc ++ ' ' :: t.value) r
    else (acc, t :: r)
  | acc, [] => (acc, [])

/-- parser.ts parsePrimitive: consume a VALUE token, combine following same-line VALUE
tokens, collect an optional inline comment, then classify the text: the literal null,
the literals true/false, a numeric literal, or else a string. -/
def parsePrimitive (ctx : Ctx) : Except ParseErr (AST × Ctx) :=
  match consumeT .VALUE ctx with
  | (none, ctx1) =>
    .error { message := "Expected value", line := ctx1.line, column := ctx1.column }
  | (some ft, ctx1) =>
    let (value, rest2) := combineValues ft.value ctx1.rest
    let ctx2 : Ctx := { ctx1 with rest := rest2 }
    let (ic, ctx3) := collectInlineComment ctx2
    let meta : NodeMeta := { line := ft.line, column := ft.column }
    if value = "null".data then
      .ok (withInline (.nullv meta) ic, ctx3)
    else if value = "true".data ∨ value = "false".data then
      .ok (withInline (.prim (.b (value == "true".data)) .boolean false meta) ic, ctx3)
    else match parseNumber value with
      | some q => .ok (withInline (.prim (.n q) .number false meta) ic, ctx3)
      | none => .ok (withInline (.prim (.s value) .string false meta) ic, ctx3)

/-- The JS truthiness test `header.fields && header.fields.length > 0` used by
parseCompactInlineArray and parseCompactRow. -/
def headerHasFields (header : CompactHeader) : Bool :=
  match header.fields with
  | some fs => fs.length > 0
  | none => false

/-- The comment loop the source runs after an inline property value whose next token is
neither NEWLINE nor EOF (parser.ts, the while loop over afterSkipToken inside
parseObjectWithIndent).  Its condition is a constant in the source, so the loop exits
only through its EOF break; any other significant token makes the source spin forever,
which the fuel models. -/
def valueTrailLoop : Nat → Ctx → Except ParseErr Ctx
  | 0, _ => .error fuelErr
  | fuel + 1, ctx =>
    let (_, ctx1) := consumeT .COMMENT ctx
    let ctx2 := skipWhitespaceT ctx1
    match peekT ctx2 with
    | some t =>
      if t.type == .NEWLINE then valueTrailLoop fuel { ctx2 with rest := ctx2.rest.tail }
      else if t.type == .EOF then .ok ctx2
      else valueTrailLoop fuel ctx2
    | none => valueTrailLoop fuel ctx2

set_option maxHeartbeats 1600000 in
mutual

/-- parser.ts parseValue: skip whitespace, reject an exhausted input, then dispatch on
the current token: comments are skipped recursively, a bracket opens an inline array, a
VALUE is a primitive, a DASH is a lone array item, a KEY starts an object; anything
else is an unexpected-token error. -/
def parseValue : Nat → Ctx → Except ParseErr (AST × Ctx)
  | 0, _ => .error fuelErr
  | fuel + 1, ctx =>
    let ctx1 := skipWhitespaceT ctx
    match peekT ctx1 with
    | none => .error (unexpectedEOFErr ctx1)
    | some t =>
      if t.type == .EOF then .error (unexpectedEOFErr ctx1)
      else if t.type == .COMMENT then
        let (_, ctx2) := consumeT .COMMENT ctx1
        parseValue fuel (skipWhitespaceT ctx2)
      else if t.type == .BRACKET_OPEN then parseArray fuel ctx1
      else if t.type == .VALUE then parsePrimitive ctx1
      else if t.type == .DASH then parseArrayItem fuel ctx1
      else if t.type == .KEY then parseObject fuel ctx1
      else
        .error
          { message := "Unexpected token while parsing value", line := t.line,
            column := t.column, code := .UNEXPECTED_TOKEN,
            expected := some "object, array, primitive value, or dash",
            actual := some (tokenTag t.type ++ " (" ++ String.mk t.value ++ ")"),
            suggestion := some ("Check syntax around line " ++ toString t.line ++
              ", column " ++ toString t.column ++ ". Expected a value but found " ++
              tokenTag t.type ++ ".") }

termination_by structural fuel _ => fuel

/-- parser.ts parseObject: an object whose base indentation is the measured
indentation at the current position. -/
def parseObject : Nat → Ctx → Except ParseErr (AST × Ctx)
  | 0, _ => .error fuelErr
  | fuel + 1, ctx => parseObjectWithIndent fuel ctx (measureIndentation ctx) false

termination_by structural fuel _ => fuel

/-- parser.ts parseObjectWithIndent: starts the property loop with no properties, no
start token and the inline-start allowance not yet used. -/
def parseObjectWithIndent : Nat → Ctx → Nat → Bool → Except ParseErr (AST × Ctx)
  | 0, _, _, _ => .error fuelErr
  | fuel + 1, ctx, baseIndent, allowInlineStart =>
    parseObjectLoop fuel ctx baseIndent allowInlineStart false none []

termination_by structural fuel _ _ _ => fuel

/-- The property loop of parser.ts parseObjectWithIndent.  Each iteration measures the
indentation of the upcoming line without consuming tokens; a line strictly shallower
than the base indentation ends the object (except for the one-shot inline-start
allowance used by dash items), a line at the base indentation or deeper is parsed as a
property of this object.  A KEY line consumes the key, its optional compact-array
decorator suffix and the colon, then parses the value: a compact declaration by the
compact rule, a blank rest-of-line either as a deeper nested object, a deeper
multi-line dash array, or an empty object, and otherwise an inline value.  The loop
ends at end of input, a shallower line or an unexpected token, yielding the object (or
the missing-key error when no key was ever parsed). -/
def parseObjectLoop : Nat → Ctx → Nat → Bool → Bool → Option Token →
    List (List Char × AST) → Except ParseErr (AST × Ctx)
  | 0, _, _, _, _, _, _ => .error fuelErr
  | fuel + 1, ctx, currentIndent, allowInlineStart, inlineStartUsed, startTok, props =>
    match ctx.rest with
    | [] => finishObject startTok props ctx
    | t0 :: _ =>
      if t0.type == .EOF then finishObject startTok props ctx
      else
        let lineIndent := measureIndentation ctx
        if lineIndent < currentIndent ∧
            ¬(allowInlineStart ∧ ¬inlineStartUsed ∧ props.isEmpty) then
          finishObject startTok props ctx
        else
          let inlineUsed2 := if lineIndent < currentIndent then true else inlineStartUsed
          let ctx1 := skipWhitespaceT ctx
          let (leadC, ctx2) := collectLeadingComments ctx1
          match peekT ctx2 with
          | none => finishObject startTok props ctx2
          | some tok =>
            if tok.type == .EOF then finishObject startTok props ctx2
            else if tok.type == .KEY then
              let startTok2 := match startTok with
                | none => some tok
                | some s => some s
              match consumeT .KEY ctx2 with
              | (none, ctx3) => finishObject startTok2 props ctx3
              | (some keyTok, ctx3) =>
                let (suffix, colonTok, ctx4) := collectKeySuffix ctx3
                let header := parseCompactArrayHeader keyTok.value suffix
                let propertyKey := match header with
                  | some h => h.key
                  | none => keyTok.value
                match colonTok with
                | none =>
                  .error
                    { message := "Expected colon after key", line := tok.line,
                      column := tok.column, code := .MISSING_COLON,
                      expected := some "colon (:)", actual := some (tokenTag tok.type),
                      suggestion := some ("Add a colon after the key \"" ++
                        String.mk keyTok.value ++ "\", e.g., \"" ++ String.mk keyTok.value ++
                        ": value\"") }
                | some _ =>
                  let ctx5 := skipCommentsThenIndents (ctx4.rest.length + 1) ctx4
                  match header with
                  | some h =>
                    match parseCompactArrayValue fuel ctx5 h currentIndent keyTok with
                    | .error e => .error e
                    | .ok (arrNode, ctx6) =>
                      parseObjectLoop fuel ctx6 currentIndent allowInlineStart inlineUsed2
                        startTok2 (mapSet props propertyKey (withLeading arrNode leadC))
                  | none =>
                    match ctx5.rest.dropWhile (fun x => x.type == .INDENT) with
                    | nt :: afterNl =>
                      if nt.type == .NEWLINE then
                        let ctx6 : Ctx := { ctx5 with rest := afterNl }
                        let afterNewlineIndent := indentOnly ctx6.rest
                        if afterNewlineIndent > currentIndent then
                          let tokenAfterIndent :=
                            (ctx6.rest.dropWhile (fun x => x.type == .INDENT)).head?
                          let isDash : Bool := match tokenAfterIndent with
                            | some d => d.type == .DASH
                            | none => false
                          if isDash then
                            match parseMultiLineArray fuel ctx6 afterNewlineIndent with
                            | .error e => .error e
                            | .ok (arrNode, ctx7) =>
                              parseObjectLoop fuel ctx7 currentIndent allowInlineStart
                                inlineUsed2 startTok2
                                (mapSet props propertyKey (withLeading arrNode leadC))
                          else
                            match ctx6.rest with
                            | nta :: _ =>
                              if nta.type == .INDENT || nta.type == .KEY then
                                match parseObjectWithIndent fuel ctx6 afterNewlineIndent false with
                                | .error e => .error e
                                | .ok (nested, ctx7) =>
                                  parseObjectLoop fuel ctx7 currentIndent allowInlineStart
                                    inlineUsed2 startTok2
                                    (mapSet props propertyKey (withLeading nested leadC))
                              else
                                parseObjectLoop fuel ctx6 currentIndent allowInlineStart
                                  inlineUsed2 startTok2
                                  (mapSet props propertyKey
                                    (withLeading (emptyObj nt.line nt.column) leadC))
                            | [] =>
                              parseObjectLoop fuel ctx6 currentIndent allowInlineStart
                                inlineUsed2 startTok2
                                (mapSet props propertyKey
                                  (withLeading (emptyObj nt.line nt.column) leadC))
                        else
                          parseObjectLoop fuel ctx6 currentIndent allowInlineStart
                            inlineUsed2 startTok2
                            (mapSet props propertyKey
                              (withLeading (emptyObj nt.line nt.column) leadC))
                      else
                        let ctx6 : Ctx := { ctx5 with rest := nt :: afterNl }
                        if nt.type == .EOF then
                          parseObjectLoop fuel ctx6 currentIndent allowInlineStart
                            inlineUsed2 startTok2
                            (mapSet props propertyKey
                              (withLeading (emptyObj keyTok.line keyTok.column) leadC))
                        else
                          match
                            (if nt.type == .VALUE then parsePrimitive ctx6
                             else if nt.type == .BRACKET_OPEN then parseArray fuel ctx6
                             else parseValue fuel ctx6) with
                          | .error e => .error e
                          | .ok (value, ctx7) =>
                            let props2 := mapSet props propertyKey (withLeading value leadC)
                            match ctx7.rest with
                            | av :: avr =>
                              if av.type == .NEWLINE then
                                parseObjectLoop fuel { ctx7 with rest := avr } currentIndent
                                  allowInlineStart inlineUsed2 startTok2 props2
                              else if av.type == .EOF then finishObject startTok2 props2 ctx7
                              else
                                afterInlineValue fuel ctx7 currentIndent allowInlineStart
                                  inlineUsed2 startTok2 props2
                            | [] =>
                              afterInlineValue fuel ctx7 currentIndent allowInlineStart
                                inlineUsed2 startTok2 props2
                    | [] =>
                      parseObjectLoop fuel { ctx5 with rest := [] } currentIndent
                        allowInlineStart inlineUsed2 startTok2
                        (mapSet props propertyKey
                          (withLeading (emptyObj keyTok.line keyTok.column) leadC))
            else if tok.type == .NEWLINE then
              parseObjectLoop fuel { ctx2 with rest := ctx2.rest.tail } currentIndent
                allowInlineStart inlineUsed2 startTok props
            else finishObject startTok props ctx2

termination_by structural fuel _ _ _ _ _ _ => fuel

/-- Tail of the inline-value case of the property loop (parser.ts): when no newline
immediately follows the value, whitespace is skipped, a trailing comment enters the
source's constant-condition comment loop, and then a newline continues the loop, EOF
ends the object, and anything else also continues the loop. -/
def afterInlineValue : Nat → Ctx → Nat → Bool → Bool → Option Token →
    List (List Char × AST) → Except ParseErr (AST × Ctx)
  | 0, _, _, _, _, _, _ => .error fuelErr
  | fuel + 1, ctx, currentIndent, allowInlineStart, inlineUsed, startTok, props =>
    let ctx8 := skipWhitespaceT ctx
    let trail : Except ParseErr Ctx :=
      match peekT ctx8 with
      | some c =>
        if c.type == .COMMENT then valueTrailLoop (ctx8.rest.length + 1) ctx8 else .ok ctx8
      | none => .ok ctx8
    match trail with
    | .error e => .error e
    | .ok ctx9 =>
      match peekT ctx9 with
      | some f =>
        if f.type == .NEWLINE then
          parseObjectLoop fuel { ctx9 with rest := ctx9.rest.tail } currentIndent
            allowInlineStart inlineUsed startTok props
        else if f.type == .EOF then finishObject startTok props ctx9
        else parseObjectLoop fuel ctx9 currentIndent allowInlineStart inlineUsed startTok props
      | none =>
        parseObjectLoop fuel ctx9 currentIndent allowInlineStart inlineUsed startTok props

termination_by structural fuel _ _ _ _ _ _ => fuel

/-- parser.ts parseArray: bracket-delimited comma-separated values; empty brackets give
an empty inline array. -/
def parseArray : Nat → Ctx → Except ParseErr (AST × Ctx)
  | 0, _ => .error fuelErr
  | fuel + 1, ctx =>
    match consumeT .BRACKET_OPEN ctx with
    | (none, ctx1) =>
      .error
        { message := "Expected opening bracket for array", line := ctx1.line,
          column := ctx1.column, code := .UNEXPECTED_TOKEN, expected := some "[",
          suggestion := some "Use square brackets for arrays, e.g., \"[item1, item2]\"" }
    | (some st, ctx1) =>
      let ctx2 := skipWhitespaceT ctx1
      match peekT ctx2 with
      | some t =>
        if t.type == .BRACKET_CLOSE then
          let (_, ctx3) := consumeT .BRACKET_CLOSE ctx2
          .ok (.arrn [] (some .inline) { line := st.line, column := st.column }, ctx3)
        else parseArrayLoop fuel ctx2 st []
      | none => parseArrayLoop fuel ctx2 st []

termination_by structural fuel _ => fuel

/-- The item loop of parser.ts parseArray: until EOF, parse a value, then demand a
comma (consumed together with following whitespace) or the closing bracket. -/
def parseArrayLoop : Nat → Ctx → Token → List AST → Except ParseErr (AST × Ctx)
  | 0, _, _, _ => .error fuelErr
  | fuel + 1, ctx, st, items =>
    let (eof, ctxE) := isEOFT ctx
    if eof then
      .ok (.arrn items (some .inline) { line := st.line, column := st.column }, ctxE)
    else
      let ctx1 := skipWhitespaceT ctxE
      let atClose : Bool := match peekT ctx1 with
        | some t => t.type == .BRACKET_CLOSE
        | none => false
      if atClose then
        let (_, ctx2) := consumeT .BRACKET_CLOSE ctx1
        .ok (.arrn items (some .inline) { line := st.line, column := st.column }, ctx2)
      else
        match parseValue fuel ctx1 with
        | .error e => .error e
        | .ok (item, ctx2) =>
          let items2 := items ++ [item]
          let ctx3 := skipWhitespaceT ctx2
          match peekT ctx3 with
          | some c =>
            if c.type == .COMMA then
              let (_, ctx4) := consumeT .COMMA ctx3
              parseArrayLoop fuel (skipWhitespaceT ctx4) st items2
            else if !(c.type == .BRACKET_CLOSE) then
              .error
                { message := "Expected comma or closing bracket", line := c.line,
                  column := c.column }
            else parseArrayLoop fuel ctx3 st items2
          | none =>
            .error
              { message := "Expected comma or closing bracket", line := ctx3.line,
                column := ctx3.column }

termination_by structural fuel _ _ _ => fuel

/-- parser.ts parseMultiLineArray: runs the dash-item loop and packages the result. -/
def parseMultiLineArray : Nat → Ctx → Nat → Except ParseErr (AST × Ctx)
  | 0, _, _ => .error fuelErr
  | fuel + 1, ctx, baseIndent =>
    match parseMultiLineLoop fuel ctx baseIndent none [] with
    | .error e => .error e
    | .ok (items, startTok, ctx2) => finishMultiLine startTok items ctx2

termination_by structural fuel _ _ => fuel

/-- The dash-item loop of parser.ts parseMultiLineArray: a line at exactly the base
indentation starting with DASH is one item — an empty rest of line yields an empty
object item, a KEY yields a nested object whose base indentation is two deeper (with
the inline-start allowance), anything else is a plain value; a shallower line, EOF or
an unexpected token ends the array. -/
def parseMultiLineLoop : Nat → Ctx → Nat → Option Token → List AST →
    Except ParseErr (List AST × Option Token × Ctx)
  | 0, _, _, _, _ => .error fuelErr
  | fuel + 1, ctx, baseIndent, startTok, items =>
    match ctx.rest with
    | [] => .ok (items, startTok, ctx)
    | t0 :: _ =>
      if t0.type == .EOF then .ok (items, startTok, ctx)
      else
        let lineIndent := measureIndentation ctx
        if lineIndent < baseIndent then .ok (items, startTok, ctx)
        else
          let ctx1 := skipWhitespaceT ctx
          match peekT ctx1 with
          | none => .ok (items, startTok, ctx1)
          | some tok =>
            if tok.type == .EOF then .ok (items, startTok, ctx1)
            else if lineIndent == baseIndent && tok.type == .DASH then
              let startTok2 := match startTok with
                | none => some tok
                | some s => some s
              let (_, ctx2) := consumeT .DASH ctx1
              let ctx3 := skipWhitespaceT ctx2
              match peekT ctx3 with
              | none =>
                parseMultiLineLoop fuel ctx3 baseIndent startTok2
                  (items ++ [emptyObj tok.line tok.column])
              | some ad =>
                if ad.type == .NEWLINE then
                  let items2 := items ++ [emptyObj tok.line tok.column]
                  let ctx4 : Ctx := { ctx3 with rest := ctx3.rest.tail }
                  multiAfterItem fuel ctx4 baseIndent startTok2 items2
                else if ad.type == .KEY then
                  match parseObjectWithIndent fuel ctx3 (baseIndent + 2) true with
                  | .error e => .error e
                  | .ok (itemObject, ctx4) =>
                    multiAfterItem fuel ctx4 baseIndent startTok2 (items ++ [itemObject])
                else
                  match parseValue fuel ctx3 with
                  | .error e => .error e
                  | .ok (item, ctx4) =>
                    multiAfterItem fuel ctx4 baseIndent startTok2 (items ++ [item])
            else if tok.type == .NEWLINE then
              parseMultiLineLoop fuel { ctx1 with rest := ctx1.rest.tail } baseIndent
                startTok items
            else .ok (items, startTok, ctx1)

termination_by structural fuel _ _ _ _ => fuel

/-- After one dash item (parser.ts): consume a newline if present, end the array at
EOF, otherwise iterate. -/
def multiAfterItem : Nat → Ctx → Nat → Option Token → List AST →
    Except ParseErr (List AST × Option Token × Ctx)
  | 0, _, _, _, _ => .error fuelErr
  | fuel + 1, ctx, baseIndent, startTok, items =>
    match peekT ctx with
    | some ai =>
      if ai.type == .NEWLINE then
        parseMultiLineLoop fuel { ctx with rest := ctx.rest.tail } baseIndent startTok items
      else if ai.type == .EOF then .ok (items, startTok, ctx)
      else parseMultiLineLoop fuel ctx baseIndent startTok items
    | none => parseMultiLineLoop fuel ctx baseIndent startTok items

termination_by structural fuel _ _ _ _ => fuel

/-- parser.ts parseCompactArrayValue: a newline after the decorated key demands rows
indented deeper than the current level and parses them as compact rows; otherwise the
values follow inline. -/
def parseCompactArrayValue : Nat → Ctx → CompactHeader → Nat → Token →
    Except ParseErr (AST × Ctx)
  | 0, _, _, _, _ => .error fuelErr
  | fuel + 1, ctx, header, currentIndent, startTok =>
    let atNewline : Bool := match peekT ctx with
      | some t => t.type == .NEWLINE
      | none => false
    if atNewline then
      match peekT ctx with
      | some nt =>
        let ctx1 : Ctx := { ctx with rest := ctx.rest.tail }
        let rowIndent := measureIndentation ctx1
        if rowIndent ≤ currentIndent then
          .error
            { message := "Expected indented rows for compact array", line := nt.line,
              column := nt.column }
        else parseCompactArrayRows fuel ctx1 header rowIndent startTok
      | none => parseCompactInlineArray fuel ctx header startTok
    else parseCompactInlineArray fuel ctx header startTok

termination_by structural fuel _ _ _ _ => fuel

/-- parser.ts parseCompactInlineArray: declared field names are rejected for the inline
form; the comma-separated values are read on the line, a trailing newline is consumed,
and the item count must equal the declared length exactly. -/
def parseCompactInlineArray : Nat → Ctx → CompactHeader → Token →
    Except ParseErr (AST × Ctx)
  | 0, _, _, _ => .error fuelErr
  | fuel + 1, ctx, header, startTok =>
    if headerHasFields header then
      .error
        { message := "Compact object arrays with fields must use multi-line rows",
          line := startTok.line, column := startTok.column }
    else
      match parseCompactInlineLoop fuel ctx [] with
      | .error e => .error e
      | .ok (items, ctx2) =>
        let ctx3 := match peekT ctx2 with
          | some t => if t.type == .NEWLINE then { ctx2 with rest := ctx2.rest.tail } else ctx2
          | none => ctx2
        if items.length ≠ header.length then
          .error
            { message := "Expected " ++ toString header.length ++
              " items in compact array but found " ++ toString items.length,
              line := startTok.line, column := startTok.column }
        else
          .ok (.arrn items (some .compact) { line := startTok.line, column := startTok.column },
            ctx3)

termination_by structural fuel _ _ _ => fuel

/-- The value loop of parser.ts parseCompactInlineArray: read values separated by
commas until the end of the line. -/
def parseCompactInlineLoop : Nat → Ctx → List AST →
    Except ParseErr (List AST × Ctx)
  | 0, _, _ => .error fuelErr
  | fuel + 1, ctx, items =>
    match ctx.rest with
    | [] => .ok (items, ctx)
    | t0 :: _ =>
      if t0.type == .EOF then .ok (items, ctx)
      else
        let ctx1 := skipWhitespaceT ctx
        match peekT ctx1 with
        | none => .ok (items, ctx1)
        | some nt =>
          if nt.type == .NEWLINE || nt.type == .EOF then .ok (items, ctx1)
          else
            match parseValue fuel ctx1 with
            | .error e => .error e
            | .ok (v, ctx2) =>
              let ctx3 := skipWhitespaceT ctx2
              let atComma : Bool := match peekT ctx3 with
                | some c => c.type == .COMMA
                | none => false
              if atComma then
                parseCompactInlineLoop fuel { ctx3 with rest := ctx3.rest.tail } (items ++ [v])
              else .ok (items ++ [v], ctx3)

termination_by structural fuel _ _ => fuel

/-- parser.ts parseCompactArrayRows: runs the row loop (which stops after the declared
number of rows) and then demands that exactly the declared number of rows was
present. -/
def parseCompactArrayRows : Nat → Ctx → CompactHeader → Nat → Token →
    Except ParseErr (AST × Ctx)
  | 0, _, _, _, _ => .error fuelErr
  | fuel + 1, ctx, header, rowIndent, startTok =>
    match parseCompactRowsLoop fuel ctx header rowIndent [] with
    | .error e => .error e
    | .ok (items, ctx2) =>
      if items.length ≠ header.length then
        .error
          { message := "Expected " ++ toString header.length ++
            " rows in compact array but found " ++ toString items.length,
            line := startTok.line, column := startTok.column }
      else
        .ok (.arrn items (some .compact) { line := startTok.line, column := startTok.column },
          ctx2)

termination_by structural fuel _ _ _ _ => fuel

/-- The row loop of parser.ts parseCompactArrayRows: while input remains, the current
token is not EOF and fewer than the declared number of rows have been read — newlines
are skipped, a line shallower than the row indentation ends the loop, a deeper line is
the bad-indentation parse error, and a line at the row indentation is parsed as one
row. -/
def parseCompactRowsLoop : Nat → Ctx → CompactHeader → Nat → List AST →
    Except ParseErr (List AST × Ctx)
  | 0, _, _, _, _ => .error fuelErr
  | fuel + 1, ctx, header, rowIndent, items =>
    match ctx.rest with
    | [] => .ok (items, ctx)
    | t :: r =>
      if t.type == .EOF then .ok (items, ctx)
      else if ¬(items.length < header.length) then .ok (items, ctx)
      else if t.type == .NEWLINE then
        parseCompactRowsLoop fuel { ctx with rest := r } header rowIndent items
      else
        let indent := indentOnly ctx.rest
        if indent < rowIndent then .ok (items, ctx)
        else if indent > rowIndent then
          .error
            { message := "Unexpected indentation in compact array row",
              line := t.line, column := t.column }
        else
          let ctx1 : Ctx := { ctx with rest := ctx.rest.dropWhile (fun x => x.type == .INDENT) }
          match parseCompactRow fuel ctx1 header with
          | .error e => .error e
          | .ok (row, ctx2) =>
            parseCompactRowsLoop fuel ctx2 header rowIndent (items ++ [row])

termination_by structural fuel _ _ _ _ => fuel

/-- parser.ts parseCompactRow: runs the field loop, rejects an empty row, and — when
the header declared field names — rejects a row missing any declared field (fields not
declared are not checked). -/
def parseCompactRow : Nat → Ctx → CompactHeader → Except ParseErr (AST × Ctx)
  | 0, _, _ => .error fuelErr
  | fuel + 1, ctx, header =>
    match parseCompactRowLoop fuel ctx none [] with
    | .error e => .error e
    | .ok (props, startTok, ctx2) =>
      if props.isEmpty then
        .error
          { message := "Expected fields in compact array row", line := ctx2.line,
            column := ctx2.column }
      else
        let line := match startTok with
          | some s => s.line
          | none => ctx2.line
        let column := match startTok with
          | some s => s.column
          | none => ctx2.column
        if headerHasFields header then
          match (header.fields.getD []).find? (fun f => !(props.any (fun p => p.1 = f))) with
          | some f =>
            .error
              { message := "Missing \"" ++ String.mk f ++ "\" in compact array row",
                line := line, column := column }
          | none => .ok (.objn props { line := line, column := column }, ctx2)
        else .ok (.objn props { line := line, column := column }, ctx2)

termination_by structural fuel _ _ => fuel

/-- The field loop of parser.ts parseCompactRow: skip indentation, consume a key and
its colon, parse the value, then continue after a comma; a newline (consumed) or
anything else ends the row. -/
def parseCompactRowLoop : Nat → Ctx → Option Token → List (List Char × AST) →
    Except ParseErr (List (List Char × AST) × Option Token × Ctx)
  | 0, _, _, _ => .error fuelErr
  | fuel + 1, ctx, startTok, props =>
    match ctx.rest with
    | [] => .ok (props, startTok, ctx)
    | t0 :: _ =>
      if t0.type == .EOF then .ok (props, startTok, ctx)
      else
        let ctx1 : Ctx := { ctx with rest := ctx.rest.dropWhile (fun x => x.type == .INDENT) }
        match consumeT .KEY ctx1 with
        | (none, ctx2) => .ok (props, startTok, ctx2)
        | (some keyTok, ctx2) =>
          let startTok2 := match startTok with
            | none => some keyTok
            | some s => some s
          match consumeT .COLON ctx2 with
          | (none, _) =>
            .error
              { message := "Expected colon in compact array row", line := keyTok.line,
                column := keyTok.column }
          | (some _, ctx3) =>
            let ctx4 : Ctx := { ctx3 with rest := ctx3.rest.dropWhile (fun x => x.type == .INDENT) }
            match parseValue fuel ctx4 with
            | .error e => .error e
            | .ok (v, ctx5) =>
              let props2 := mapSet props keyTok.value v
              let ctx6 := skipInlineSeparators ctx5
              match peekT ctx6 with
              | some nt =>
                if nt.type == .COMMA then
                  parseCompactRowLoop fuel { ctx6 with rest := ctx6.rest.tail } startTok2 props2
                else if nt.type == .NEWLINE then
                  .ok (props2, startTok2, { ctx6 with rest := ctx6.rest.tail })
                else .ok (props2, startTok2, ctx6)
              | none => .ok (props2, startTok2, ctx6)

termination_by structural fuel _ _ _ => fuel

/-- parser.ts parseArrayItem: a dash followed by a value, used when a dash occurs in
value position outside an object. -/
def parseArrayItem : Nat → Ctx → Except ParseErr (AST × Ctx)
  | 0, _ => .error fuelErr
  | fuel + 1, ctx =>
    match consumeT .DASH ctx with
    | (none, ctx1) => .error { message := "Expected dash", line := ctx1.line, column := ctx1.column }
    | (some _, ctx1) => parseValue fuel (skipWhitespaceT ctx1)

termination_by structural fuel _ => fuel

end

/-- The empty-input parse error raised by parser.ts parse. -/
def emptyInputErr : ParseErr :=
  { message := "Empty input - CJSON requires at least one key-value pair", line := 1,
      column := 1, code := .EMPTY_INPUT,
      suggestion := some "Add at least one property, e.g., \"name: value\"" }

/-- The leading-comment loop of parser.ts parse: while the current token is a COMMENT,
consume it and skip whitespace. -/
def skipLeadingCommentsF : Nat → Ctx → Ctx
  | 0, ctx => ctx
  | fuel + 1, ctx =>
    match ctx.rest with
    | t :: r =>
      if t.type == .COMMENT then
        skipLeadingCommentsF fuel (skipWhitespaceT { rest := r, line := t.line, column := t.column })
      else ctx
    | [] => ctx

/-- Fuel given to the recursive-descent entry point; each unit of fuel pays for one
call or loop iteration of the source, and the source makes progress through the token
list, so this bound is comfortably sufficient for every terminating parse. -/
def parseFuel (ts : List Token) : Nat := ts.length * 16 + 64

/-- parser.ts parse, from the token list on: skip leading whitespace and comments,
reject an exhausted input with the empty-input error, then parse the root value. -/
def parseTokens (ts : List Token) : Except ParseErr AST :=
  let ctx0 : Ctx := { rest := ts, line := 1, column := 1 }
  let ctx1 := skipWhitespaceT ctx0
  let ctx2 := skipLeadingCommentsF (ts.length + 1) ctx1
  let (eof, ctx3) := isEOFT ctx2
  if eof then .error emptyInputErr
  else (parseValue (parseFuel ts) ctx3).map Prod.fst

/-- parser.ts parse: tokenize then parse the token sequence. -/
def parse (input : List Char) : Except ParseErr AST :=
  (Tokenizer.tokenize input).bind parseTokens

end Parser

/-- Plain JavaScript values: the domain of encode and the codomain of the AST-to-value
converter.  `undef` models the JS undefined value; functions, symbols and Date objects
are outside the plain-value domain handled by the claims and are not modelled. -/
inductive JSValue where
  | null
  | undef
  | bool (b : Bool)
  | num (n : JSNumber)
  | str (s : List Char)
  | arr (items : List JSValue)
  | obj (entries : List (List Char × JSValue))

namespace Converter

mutual

/-- src/ast/converter.ts astToJS, with its two helpers: strips positions and comments,
turning object nodes into ordered key/value entry lists, array nodes into value lists,
and primitive/null nodes into their payloads.  The source recursion is structural; the
fuel only pays for the nested-list traversal and `none` is never returned for fuel
larger than the tree size. -/
def astToJS : Nat → AST → Option JSValue
  | 0, _ => none
  | fuel + 1, .objn ps _ => (astToJSEntries fuel ps).map JSValue.obj
  | fuel + 1, .arrn items _ _ => (astToJSList fuel items).map JSValue.arr
  | _ + 1, .prim (.s v) _ _ _ => some (.str v)
  | _ + 1, .prim (.n v) _ _ _ => some (.num v)
  | _ + 1, .prim (.b v) _ _ _ => some (.bool v)
  | _ + 1, .nullv _ => some .null

/-- Entry-list part of astToJS (astObjectToJS). -/
def astToJSEntries : Nat → List (List Char × AST) → Option (List (List Char × JSValue))
  | 0, _ => none
  | _ + 1, [] => some []
  | fuel + 1, (k, v) :: rest =>
    match astToJS fuel v, astToJSEntries fuel rest with
    | some jv, some jrest => some ((k, jv) :: jrest)
    | _, _ => none

/-- Item-list part of astToJS (astArrayToJS). -/
def astToJSList : Nat → List AST → Option (List JSValue)
  | 0, _ => none
  | _ + 1, [] => some []
  | fuel + 1, v :: rest =>
    match astToJS fuel v, astToJSList fuel rest with
    | some jv, some jrest => some (jv :: jrest)
    | _, _ => none

end

/-- The exported astToValue projection (index.ts): astToJS at ample fuel. -/
def astToValue (node : AST) : Option JSValue := astToJS 1000000 node

end Converter

namespace Encoder

/-- Quoting strategies (encoder/utils.ts, type QuoteMode). -/
inductive QuoteMode where
  | auto
  | always
  | never
deriving DecidableEq, Repr

/-- Encode error (src/errors/errors.ts, class EncodeError; default position 0,0 and
default code UNSUPPORTED_TYPE). -/
structure EncodeErr where
  message : String
  line : Nat := 0
  column : Nat := 0
  code : ErrorCode := .UNSUPPORTED_TYPE
  expected : Option String := none
  actual : Option String := none
  suggestion : Option String := none
deriving DecidableEq, Repr

/-- Fuel-exhaustion marker for the encoder embedding. -/
def fuelErrE : EncodeErr := { message := "embedding out of fuel", code := .FUEL_EXHAUSTED }

/-- The encoding context (encoder.ts EncodeContext merged with the always-complete
options record; DEFAULT_OPTIONS are indent 2, newline LF, auto quoting, compact arrays
on, comment preservation on). -/
structure EncodeCtx where
  indentLevel : Nat
  indentSize : Nat
  newline : List Char
  quoteMode : QuoteMode
  compactArrays : Bool
  preserveComments : Bool
deriving Repr

/-- encoder.ts DEFAULT_OPTIONS at the top level of an encode call. -/
def defaultOptionsCtx : EncodeCtx :=
  { indentLevel := 0, indentSize := 2, newline := ['\n'], quoteMode := .auto,
    compactArrays := true, preserveComments := true }

/-- formatter.ts FormattedValue. -/
structure FormattedValue where
  inline : Bool
  text : List Char
  headerSuffix : Option (List Char) := none
  leadingComment : Option (List Char) := none
  inlineComment : Option (List Char) := none
  trailingComment : Option (List Char) := none
deriving DecidableEq, Repr

/-- formatter.ts FormattedProperty. -/
structure FormattedProperty where
  key : List Char
  value : FormattedValue
  headerSuffix : Option (List Char) := none
  leadingComment : Option (List Char) := none
  inlineComment : Option (List Char) := none
deriving DecidableEq, Repr

/-- formatter.ts indentString: level times width spaces (the source clamps at zero,
which is automatic for naturals). -/
def indentString (ctx : EncodeCtx) : List Char :=
  List.replicate (ctx.indentLevel * ctx.indentSize) ' '

/-- JS truthiness of an optional string. -/
def truthy : Option (List Char) → Bool
  | some v => !v.isEmpty
  | none => false

/-- JS `a || b` on optional comment strings. -/
def jsOrComment (a b : Option (List Char)) : Option (List Char) :=
  if truthy a then a else b

/-- Comment lines emitted before a property or item: each line of the comment text,
prefixed with the indentation and a hash. -/
def commentLines (indent comment : List Char) : List (List Char) :=
  (comment.splitOn '\n').map (fun cl => indent ++ '#' :: cl)

/-- formatter.ts formatObject: an empty property list is the inline empty-braces text;
otherwise one line per inline property (`key: value`, with the optional decorated key
suffix and an appended inline comment), two entries for a block property (`key:` then
the nested block), with leading/trailing comment lines around them, joined with the
configured newline. -/
def formatObject (properties : List FormattedProperty) (ctx : EncodeCtx) : FormattedValue :=
  if properties.isEmpty then { inline := true, text := [lbrace, rbrace] }
  else
    let indent := indentString ctx
    let lines := properties.foldl
      (fun acc property =>
        let acc :=
          match jsOrComment property.leadingComment property.value.leadingComment with
          | some comment =>
            if comment.isEmpty then acc else acc ++ commentLines indent comment
          | none => acc
        let key := match property.headerSuffix with
          | some hs => if hs.isEmpty then property.key else property.key ++ hs
          | none => property.key
        let acc :=
          if property.value.inline then
            let line := indent ++ key ++ ':' :: ' ' :: property.value.text
            let line :=
              match jsOrComment property.inlineComment property.value.inlineComment with
              | some comment =>
                if comment.isEmpty then line else line ++ ' ' :: '#' :: comment
              | none => line
            acc ++ [line]
          else acc ++ [indent ++ key ++ [':'], property.value.text]
        match property.value.trailingComment with
        | some tc => if tc.isEmpty then acc else acc ++ commentLines indent tc
        | none => acc)
      []
    { inline := false, text := List.intercalate ctx.newline lines }

/-- One iteration of the item loop of formatter.ts formatArray: optional leading
comment lines, then either a `- item` line (with optional appended inline comment) for
an inline item or a lone dash line followed by the nested block, then optional
trailing comment lines. -/
def formatArrayStep (indent : List Char) (acc : List (List Char))
    (item : FormattedValue) : List (List Char) :=
  let acc := match item.leadingComment with
    | some c => if c.isEmpty then acc else acc ++ commentLines indent c
    | none => acc
  let acc :=
    if item.inline then
      let line := indent ++ '-' :: ' ' :: item.text
      let line := match item.inlineComment with
        | some c => if c.isEmpty then line else line ++ ' ' :: '#' :: c
        | none => line
      acc ++ [line]
    else acc ++ [indent ++ ['-'], item.text]
  match item.trailingComment with
  | some tc => if tc.isEmpty then acc else acc ++ commentLines indent tc
  | none => acc

/-- formatter.ts formatArray: one `- item` entry per item at the current indentation,
joined with the configured newline. -/
def formatArray (items : List FormattedValue) (ctx : EncodeCtx) : FormattedValue :=
  let lines := items.foldl (formatArrayStep (indentString ctx)) []
  { inline := false, text := List.intercalate ctx.newline lines }

/-- The reserved characters of encoder/utils.ts RESERVED_CHAR_PATTERN. -/
def isReservedChar (c : Char) : Bool :=
  c == '[' || c == ']' || c == ',' || c == ':' || c == lbrace || c == rbrace ||
  c == '"' || c == '#'

/-- The safe bareword character class of encoder/utils.ts SAFE_UNQUOTED_PATTERN:
ASCII letters, digits, dot, underscore, hyphen. -/
def isSafeBareChar (c : Char) : Bool :=
  c.isAlpha || c.isDigit || c == '.' || c == '_' || c == '-'

/-- encoder/utils.ts needsQuoting: quote when the string is empty, has leading or
trailing whitespace (it differs from its trim), contains a newline, carriage return or
tab, contains a reserved character, fully matches the strict numeric-literal pattern,
is a reserved word, or is not entirely made of safe bareword characters. -/
def needsQuoting (value : List Char) : Bool :=
  if value.length = 0 then true
  else if value ≠ Parser.jsTrim value then true
  else if value.any (fun c => c == '\n') || value.any (fun c => c == '\r') ||
      value.any (fun c => c == '\t') then true
  else if value.any isReservedChar then true
  else if Parser.numericStrict value then true
  else if value = "true".data ∨ value = "false".data ∨ value = "null".data then true
  else !(decide (value ≠ []) && value.all isSafeBareChar)

/-- encoder/utils.ts escapeString, per character: the five escapable characters map to
their two-character forms, all others stay. -/
def escapeChar (c : Char) : List Char :=
  if c = '\\' then ['\\', '\\']
  else if c = '"' then ['\\', '"']
  else if c = '\n' then ['\\', 'n']
  else if c = '\r' then ['\\', 'r']
  else if c = '\t' then ['\\', 't']
  else [c]

/-- encoder/utils.ts escapeString. -/
def escapeString (s : List Char) : List Char :=
  s.foldr (fun c acc => escapeChar c ++ acc) []

/-- encoder/utils.ts isPlainObject on the modelled value domain (every modelled object
is a plain prototype-less record). -/
def isPlainObject : JSValue → Bool
  | .obj _ => true
  | _ => false

/-- encoder/utils.ts isPrimitiveValue: null, string, number or boolean. -/
def isPrimitiveValue : JSValue → Bool
  | .null => true
  | .str _ => true
  | .num _ => true
  | .bool _ => true
  | _ => false

/-- encoder.ts encodeString: always-quote mode quotes and escapes, never-quote mode
passes the text through, auto mode quotes exactly when needsQuoting holds. -/
def encodeString (value : List Char) (qm : QuoteMode) : List Char :=
  match qm with
  | .always => '"' :: escapeString value ++ ['"']
  | .never => value
  | .auto => if needsQuoting value then '"' :: escapeString value ++ ['"'] else value

/-- Decimal digits of a natural number. -/
def natDigits (n : Nat) : List Char := Nat.toDigits 10 n

/-- JS Number.prototype.toString on the scaled-decimal model: the exact decimal
expansion (a nonnegative scale appends zeros, a negative scale places the decimal
point).  This agrees with the source on every value the claims evaluate; the
shortest-roundtrip trimming JS performs on non-canonical representations (such as a
mantissa with trailing zeros after the point) is abstracted away. -/
def jsNumberToString (q : JSNumber) : List Char :=
  let sign : List Char := if q.mant < 0 then ['-'] else []
  let m := q.mant.natAbs
  if 0 ≤ q.dexp then sign ++ natDigits m ++ List.replicate q.dexp.toNat '0'
  else
    let k := (-q.dexp).toNat
    let ds := natDigits m
    if ds.length ≤ k then sign ++ '0' :: '.' :: (List.replicate (k - ds.length) '0' ++ ds)
    else sign ++ ds.take (ds.length - k) ++ '.' :: ds.drop (ds.length - k)

/-- encoder.ts encodeNumber.  The source rejects non-finite numbers; every value of
the scaled-decimal model is finite, so the check always passes here. -/
def encodeNumber (q : JSNumber) : Except EncodeErr (List Char) :=
  .ok (jsNumberToString q)

/-- encoder.ts encodeBoolean. -/
def encodeBoolean (b : Bool) : List Char := if b then "true".data else "false".data

/-- The string `typeof` would report for a non-primitive encode argument. -/
def typeofStr : JSValue → String
  | .undef => "undefined"
  | _ => "object"

/-- encoder.ts encodePrimitive: null, strings, numbers and booleans encode to their
text; anything else is the invalid-value encode error. -/
def encodePrimitive (v : JSValue) (qm : QuoteMode) : Except EncodeErr (List Char) :=
  match v with
  | .null => .ok "null".data
  | .str s => .ok (encodeString s qm)
  | .num q => encodeNumber q
  | .bool b => .ok (encodeBoolean b)
  | other =>
    .error
      { message := "Cannot encode primitive value of type " ++ typeofStr other,
        code := .INVALID_VALUE,
        expected := some "string, number, boolean, or null",
        actual := some (typeofStr other),
        suggestion := some ("Convert " ++ typeofStr other ++
          " to a supported primitive type") }

/-- encoder.ts normalizeObjectForEncoding: drop undefined-valued entries. -/
def normalizeObjectForEncoding (es : List (List Char × JSValue)) :
    List (List Char × JSValue) :=
  es.filter (fun e => match e.2 with
    | .undef => false
    | _ => true)

/-- encoder.ts isUniformObjectArray: a nonempty list of records all sharing the ordered
key list of the first record (the source compares lengths and then each position,
which is list equality of the key lists). -/
def isUniformObjectArray (items : List (List (List Char × JSValue))) : Bool :=
  match items with
  | [] => false
  | e0 :: rest => rest.all (fun es => es.map Prod.fst = e0.map Prod.fst)

/-- encoder.ts hasOnlyPrimitiveValues. -/
def hasOnlyPrimitiveValues (es : List (List Char × JSValue)) : Bool :=
  es.all (fun e => isPrimitiveValue e.2)

/-- Inline-primitive-array thresholds (encoder.ts INLINE_PRIMITIVE_MAX_ITEMS and
INLINE_PRIMITIVE_MAX_LENGTH). -/
def INLINE_PRIMITIVE_MAX_ITEMS : Nat := 5

/-- The 80-character inline length threshold. -/
def INLINE_PRIMITIVE_MAX_LENGTH : Nat := 80

/-- encoder.ts shouldRenderInlinePrimitiveArray: at most 5 items and at most 80
rendered characters. -/
def shouldRenderInlinePrimitiveArray (itemCount inlineLength : Nat) : Bool :=
  itemCount ≤ INLINE_PRIMITIVE_MAX_ITEMS && inlineLength ≤ INLINE_PRIMITIVE_MAX_LENGTH

/-- JS property access on a record: the first entry with the key, else undefined. -/
def lookupJS (es : List (List Char × JSValue)) (f : List Char) : JSValue :=
  match es.find? (fun p => p.1 = f) with
  | some p => p.2
  | none => (.undef)

/-- encoder.ts formatCompactRow: the row indentation followed by the comma-joined
`field: value` pairs in declared field order. -/
def formatCompactRow (item : List (List Char × JSValue)) (fields : List (List Char))
    (qm : QuoteMode) (rowIndent : List Char) : Except EncodeErr (List Char) :=
  match fields.mapM (fun f => (encodePrimitive (lookupJS item f) qm).map
      (fun ev => f ++ ':' :: ' ' :: ev)) with
  | .error e => .error e
  | .ok parts => .ok (rowIndent ++ List.intercalate (',' :: [' ']) parts)

/-- All compact rows of an array. -/
def compactRows (items : List (List (List Char × JSValue))) (fields : List (List Char))
    (qm : QuoteMode) (rowIndent : List Char) : Except EncodeErr (List (List Char)) :=
  items.mapM (fun item => formatCompactRow item fields qm rowIndent)

mutual

/-- encoder.ts encodeValue: null encodes inline, arrays and plain objects recurse,
strings/numbers/booleans encode inline, undefined is a hard encode error (functions,
symbols and dates are outside the modelled domain). -/
def encodeValue : Nat → JSValue → EncodeCtx → Except EncodeErr FormattedValue
  | 0, _, _ => .error fuelErrE
  | fuel + 1, v, ctx =>
    match v with
    | .null => .ok { inline := true, text := "null".data }
    | .arr items => encodeArray fuel items ctx none
    | .obj es => encodeObject fuel es ctx
    | .str s => .ok { inline := true, text := encodeString s ctx.quoteMode }
    | .num q =>
      match encodeNumber q with
      | .error e => .error e
      | .ok t => .ok { inline := true, text := t }
    | .bool b => .ok { inline := true, text := encodeBoolean b }
    | .undef =>
      .error
        { message := "Cannot encode undefined values", code := .INVALID_VALUE,
          expected := some "null, object, array, string, number, or boolean",
          actual := some "undefined",
          suggestion := some "Use null instead of undefined, or remove the property" }

/-- encoder.ts encodeObject: an empty record is the inline empty-braces text, otherwise
the formatted property lines. -/
def encodeObject : Nat → List (List Char × JSValue) → EncodeCtx →
    Except EncodeErr FormattedValue
  | 0, _, _ => .error fuelErrE
  | fuel + 1, es, ctx =>
    if es.isEmpty then .ok { inline := true, text := [lbrace, rbrace] }
    else
      match encodeEntries fuel es ctx with
      | .error e => .error e
      | .ok properties => .ok (formatObject properties ctx)

/-- The property loop of encoder.ts encodeObject: undefined-valued entries are
skipped; nested objects and arrays are encoded one indent level deeper (an array
receives its key as parent-key context and contributes its header suffix); other
values encode as primitives. -/
def encodeEntries : Nat → List (List Char × JSValue) → EncodeCtx →
    Except EncodeErr (List FormattedProperty)
  | 0, _, _ => .error fuelErrE
  | _ + 1, [], _ => .ok []
  | fuel + 1, (key, child) :: rest, ctx =>
    match child with
    | .undef => encodeEntries fuel rest ctx
    | .obj ces =>
      match encodeObject fuel ces { ctx with indentLevel := ctx.indentLevel + 1 } with
      | .error e => .error e
      | .ok ec =>
        match encodeEntries fuel rest ctx with
        | .error e => .error e
        | .ok ps => .ok ({ key := key, value := ec } :: ps)
    | .arr items =>
      match encodeArray fuel items { ctx with indentLevel := ctx.indentLevel + 1 }
          (some key) with
      | .error e => .error e
      | .ok ea =>
        match encodeEntries fuel rest ctx with
        | .error e => .error e
        | .ok ps => .ok ({ key := key, value := ea, headerSuffix := ea.headerSuffix } :: ps)
    | _ =>
      match encodePrimitive child ctx.quoteMode with
      | .error e => .error e
      | .ok t =>
        match encodeEntries fuel rest ctx with
        | .error e => .error e
        | .ok ps => .ok ({ key := key, value := { inline := true, text := t } } :: ps)

/-- encoder.ts encodeArray: empty arrays are inline brackets; an all-primitive array
goes through the inline-or-dash primitive path; an all-object array is normalized and,
when uniform with nonempty primitive-only fields, under a truthy parent key and with
compact arrays enabled, encodes in the compact tabular form; everything else falls
back to the dash form. -/
def encodeArray : Nat → List JSValue → EncodeCtx → Option (List Char) →
    Except EncodeErr FormattedValue
  | 0, _, _, _ => .error fuelErrE
  | fuel + 1, value, ctx, parentKey =>
    if value.isEmpty then .ok { inline := true, text := "[]".data }
    else if value.all isPrimitiveValue then encodePrimitiveArray fuel value ctx
    else if value.length > 0 && value.all isPlainObject then
      let normalizedItems := value.map (fun v => match v with
        | .obj es => normalizeObjectForEncoding es
        | _ => [])
      let uniformObjects := isUniformObjectArray normalizedItems
      let hasFields := match normalizedItems.head? with
        | some e0 => e0.length > 0
        | none => false
      let primitiveFields := normalizedItems.all hasOnlyPrimitiveValues
      let pkTruthy := match parentKey with
        | some k => !k.isEmpty
        | none => false
      if uniformObjects && primitiveFields && hasFields && pkTruthy && ctx.compactArrays then
        encodeCompactArray fuel normalizedItems ctx
      else encodeDashArray fuel value ctx
    else encodeDashArray fuel value ctx

/-- encoder.ts encodePrimitiveArray: render all items inline between brackets; keep
that text when shouldRenderInlinePrimitiveArray accepts the item count and length,
otherwise fall back to the dash form. -/
def encodePrimitiveArray : Nat → List JSValue → EncodeCtx →
    Except EncodeErr FormattedValue
  | 0, _, _ => .error fuelErrE
  | fuel + 1, value, ctx =>
    match value.mapM (fun item => encodePrimitive item ctx.quoteMode) with
    | .error e => .error e
    | .ok encodedItems =>
      let inlineText := '[' :: List.intercalate (',' :: [' ']) encodedItems ++ [']']
      if shouldRenderInlinePrimitiveArray value.length inlineText.length then
        .ok { inline := true, text := inlineText }
      else encodeDashArray fuel value ctx

/-- encoder.ts encodeDashArray: each item is encoded one level deeper and the results
are formatted as dash lines at the current level. -/
def encodeDashArray : Nat → List JSValue → EncodeCtx → Except EncodeErr FormattedValue
  | 0, _, _ => .error fuelErrE
  | fuel + 1, items, ctx =>
    match encodeItems fuel items { ctx with indentLevel := ctx.indentLevel + 1 } with
    | .error e => .error e
    | .ok formattedItems => .ok (formatArray formattedItems ctx)

/-- The item loop of encoder.ts encodeDashArray. -/
def encodeItems : Nat → List JSValue → EncodeCtx →
    Except EncodeErr (List FormattedValue)
  | 0, _, _ => .error fuelErrE
  | _ + 1, [], _ => .ok []
  | fuel + 1, v :: rest, ctx =>
    match encodeValue fuel v ctx with
    | .error e => .error e
    | .ok fv =>
      match encodeItems fuel rest ctx with
      | .error e => .error e
      | .ok fvs => .ok (fv :: fvs)

/-- encoder.ts encodeCompactArray: field names come from the first normalized item;
with no fields the dash form is used; otherwise one comma-joined row per item at one
deeper indent, with the bracketed length and braced field list as the key header
suffix. -/
def encodeCompactArray : Nat → List (List (List Char × JSValue)) → EncodeCtx →
    Except EncodeErr FormattedValue
  | 0, _, _ => .error fuelErrE
  | fuel + 1, items, ctx =>
    if items.isEmpty then .ok { inline := true, text := "[]".data }
    else
      let fields := (items.headD []).map Prod.fst
      if fields.isEmpty then encodeDashArray fuel (items.map JSValue.obj) ctx
      else
        let rowIndent := indentString ctx
        match compactRows items fields ctx.quoteMode rowIndent with
        | .error e => .error e
        | .ok rows =>
          .ok
            { inline := false, text := List.intercalate ctx.newline rows,
                headerSuffix := some ('[' :: natDigits items.length ++ ']' :: lbrace ::
                  (List.intercalate (',' :: [' ']) fields ++ [rbrace])) }

end

/-- Fuel for a top-level encode call; ample for every value the claims evaluate. -/
def encodeFuel : Nat := 1000000

/-- encoder.ts encode under default options: the rendered text of the root value. -/
def encode (value : JSValue) : Except EncodeErr (List Char) :=
  match encodeValue encodeFuel value defaultOptionsCtx with
  | .error e => .error e
  | .ok fv => .ok fv.text

end Encoder

namespace Validator

mutual

/-- src/validator/types.ts PropertySchema: the recursive schema description over the
primitive kinds, objects, arrays and the wildcard. -/
inductive PropertySchema where
  | string
  | number
  | boolean
  | null
  | any
  | object (schema : ObjectSchema)
  | array (schema : ArraySchema)

/-- src/validator/types.ts ObjectSchema: optional required-key list and optional
per-property schemas. -/
inductive ObjectSchema where
  | mk (required : Option (List (List Char)))
       (properties : Option (List (List Char × PropertySchema)))

/-- src/validator/types.ts ArraySchema: optional uniformity flag and optional item
schema. -/
inductive ArraySchema where
  | mk (uniform : Option Bool) (items : Option PropertySchema)

end

/-- Required-key list of an object schema. -/
def ObjectSchema.required : ObjectSchema → Option (List (List Char))
  | .mk r _ => r

/-- Property-schema list of an object schema. -/
def ObjectSchema.properties : ObjectSchema → Option (List (List Char × PropertySchema))
  | .mk _ p => p

/-- Uniformity flag of an array schema. -/
def ArraySchema.uniform : ArraySchema → Option Bool
  | .mk u _ => u

/-- Item schema of an array schema. -/
def ArraySchema.items : ArraySchema → Option PropertySchema
  | .mk _ i => i

/-- src/validator/types.ts ValidationError: message, AST path, 1-based position. -/
structure ValidationError where
  message : String
  path : List Char
  line : Nat
  column : Nat
deriving DecidableEq, Repr

/-- src/validator/types.ts ValidationResult. -/
structure ValidationResult where
  valid : Bool
  errors : List ValidationError
deriving DecidableEq, Repr

/-- JS string comparison used by Array.prototype.sort: lexicographic on code units. -/
def lexLt : List Char → List Char → Bool
  | [], [] => false
  | [], _ :: _ => true
  | _ :: _, [] => false
  | a :: as, b :: bs =>
    if a.val < b.val then true else if b.val < a.val then false else lexLt as bs

/-- Insertion into a sorted string list. -/
def insertSorted (x : List Char) : List (List Char) → List (List Char)
  | [] => [x]
  | y :: ys => if lexLt x y then x :: y :: ys else y :: insertSorted x ys

/-- Sorting of a key list (models Array.prototype.sort with the default string
comparison). -/
def sortStrings (l : List (List Char)) : List (List Char) := l.foldr insertSorted []

/-- Whether a node is an object node. -/
def isObjNode : AST → Bool
  | .objn _ _ => true
  | _ => false

/-- Keys of an object node (empty for other nodes). -/
def keysOf : AST → List (List Char)
  | .objn ps _ => ps.map Prod.fst
  | _ => []

/-- src/parser/utils.ts checkArrayUniformity: an empty array is uniform, a singleton
is uniform exactly when its item is an object, and a longer array is uniform when all
items are objects and every item has the same sorted key list as the first (the
source compares lengths and then each sorted position, which is equality of the
sorted key lists). -/
def checkArrayUniformity (items : List AST) : Bool :=
  match items with
  | [] => true
  | [x] => isObjNode x
  | x :: rest =>
    if !((x :: rest).all isObjNode) then false
    else
      let firstKeys := sortStrings (keysOf x)
      rest.all (fun it => sortStrings (keysOf it) = firstKeys)

/-- The `node.type` string used in mismatch messages. -/
def nodeTypeStr : AST → String
  | .objn _ _ => "object"
  | .arrn _ _ _ => "array"
  | .prim _ _ _ _ => "primitive"
  | .nullv _ => "null"

/-- Position of a node. -/
def nodeMeta : AST → NodeMeta
  | .objn _ m => m
  | .arrn _ _ m => m
  | .prim _ _ _ m => m
  | .nullv m => m

/-- A schema-mismatch error entry at a node. -/
def mismatchErr (msg : String) (path : List Char) (node : AST) : ValidationError :=
  { message := msg, path := path, line := (nodeMeta node).line,
    column := (nodeMeta node).column }

/-- Path of a property under a parent path (`path ? path + . + key : key`). -/
def propPath (path key : List Char) : List Char :=
  if path.isEmpty then key else path ++ '.' :: key

/-- Path of an array item under a parent path. -/
def itemPath (path : List Char) (i : Nat) : List Char :=
  path ++ '[' :: natOfNatDigits i
where natOfNatDigits (i : Nat) : List Char := Nat.toDigits 10 i ++ [']']

/-- Whether a primitive node has the given type tag. -/
def isPrimOfType (node : AST) (pt : PType) : Bool :=
  match node with
  | .prim _ t _ _ => t == pt
  | _ => false

mutual

/-- src/validator/validator.ts validateNode: the wildcard accepts; primitive-kind
schemas demand a primitive node of the same inferred type (null demands a null node);
object and array schemas demand the matching node kind (a mismatch stops the descent
at this node) and then recurse structurally.  Errors are accumulated in order; nothing
is ever raised. -/
def validateNode : Nat → AST → PropertySchema → List Char → List ValidationError
  | 0, _, _, _ => []
  | fuel + 1, node, schema, path =>
    match schema with
    | .any => []
    | .string =>
      if isPrimOfType node .string then []
      else [mismatchErr ("Expected string, got " ++ nodeTypeStr node) path node]
    | .number =>
      if isPrimOfType node .number then []
      else [mismatchErr ("Expected number, got " ++ nodeTypeStr node) path node]
    | .boolean =>
      if isPrimOfType node .boolean then []
      else [mismatchErr ("Expected boolean, got " ++ nodeTypeStr node) path node]
    | .null =>
      match node with
      | .nullv _ => []
      | _ => [mismatchErr ("Expected null, got " ++ nodeTypeStr node) path node]
    | .object os =>
      match node with
      | .objn ps m => validateObjectStructure fuel ps m os path
      | _ => [mismatchErr ("Expected object, got " ++ nodeTypeStr node) path node]
    | .array asch =>
      match node with
      | .arrn items _ m => validateArrayStructure fuel items m asch path
      | _ => [mismatchErr ("Expected array, got " ++ nodeTypeStr node) path node]

/-- src/validator/validator.ts validateObjectStructure: one missing-required-property
error per absent required key (at the object position, with the key appended to the
path), then recursive validation of each schema-covered property that is present. -/
def validateObjectStructure : Nat → List (List Char × AST) → NodeMeta → ObjectSchema →
    List Char → List ValidationError
  | 0, _, _, _, _ => []
  | fuel + 1, ps, m, os, path =>
    let requiredErrs := (os.required.getD []).filterMap (fun rk =>
      if ps.any (fun p => p.1 = rk) then none
      else some
        { message := "Missing required property: " ++ String.mk rk,
          path := propPath path rk, line := m.line, column := m.column })
    requiredErrs ++ validateProps fuel ps (os.properties.getD []) path

/-- The property-schema loop of validateObjectStructure (absent properties are
skipped). -/
def validateProps : Nat → List (List Char × AST) → List (List Char × PropertySchema) →
    List Char → List ValidationError
  | 0, _, _, _ => []
  | _ + 1, _, [], _ => []
  | fuel + 1, ps, (key, psch) :: rest, path =>
    (match ps.find? (fun p => p.1 = key) with
      | some p => validateNode fuel p.2 psch (propPath path key)
      | none => []) ++ validateProps fuel ps rest path

/-- src/validator/validator.ts validateArrayStructure: unless uniformity was switched
off, a nonempty non-uniform array contributes one uniformity error; then, when an item
schema is given, every item is validated against it, with its index appended to the
path. -/
def validateArrayStructure : Nat → List AST → NodeMeta → ArraySchema → List Char →
    List ValidationError
  | 0, _, _, _, _ => []
  | fuel + 1, items, m, asch, path =>
    let uniformErrs :=
      if asch.uniform ≠ some false then
        if !(checkArrayUniformity items) ∧ items.length > 0 then
          [{ message := "Array items must have uniform structure", path := path,
             line := m.line, column := m.column }]
        else []
      else []
    uniformErrs ++
      (match asch.items with
        | some isch => validateItems fuel items isch path 0
        | none => [])

/-- The item loop of validateArrayStructure. -/
def validateItems : Nat → List AST → PropertySchema → List Char → Nat →
    List ValidationError
  | 0, _, _, _, _ => []
  | _ + 1, [], _, _, _ => []
  | fuel + 1, it :: rest, isch, path, i =>
    validateNode fuel it isch (itemPath path i) ++ validateItems fuel rest isch path (i + 1)

/-- src/validator/validator.ts validateStructure (the schema-less walk): objects report
one empty-key error per empty (trimmed) key and recurse into every property; arrays
recurse into every item; primitives and null report nothing. -/
def validateStructure : Nat → AST → List Char → List ValidationError
  | 0, _, _ => []
  | fuel + 1, node, path =>
    match node with
    | .objn ps m => validateStructEntries fuel ps m path
    | .arrn items _ _ => validateStructItems fuel items path 0
    | .prim _ _ _ _ => []
    | .nullv _ => []

/-- The property loop of validateStructure. -/
def validateStructEntries : Nat → List (List Char × AST) → NodeMeta → List Char →
    List ValidationError
  | 0, _, _, _ => []
  | _ + 1, [], _, _ => []
  | fuel + 1, (key, value) :: rest, m, path =>
    (if (Parser.jsTrim key).length = 0 then
      [{ message := "Object property has empty key",
         path := if path.isEmpty then "<root>".data else path,
         line := m.line, column := m.column }]
    else []) ++ validateStructure fuel value (propPath path key) ++
      validateStructEntries fuel rest m path

/-- The item loop of validateStructure. -/
def validateStructItems : Nat → List AST → List Char → Nat → List ValidationError
  | 0, _, _, _ => []
  | _ + 1, [], _, _ => []
  | fuel + 1, it :: rest, path, i =>
    validateStructure fuel it (itemPath path i) ++ validateStructItems fuel rest path (i + 1)

end

/-- Fuel for a top-level validation; a fuel unit pays for one recursion step, so this
is ample for every tree the claims touch, and running out of fuel only truncates the
error list (the validity flag is computed from the errors either way, exactly as in
the source). -/
def validateFuel : Nat := 1000000

/-- src/validator/validator.ts validate: with a schema, walk the tree against it; with
none, perform the structural walk; the result couples the accumulated error list with
a validity flag that holds exactly when that list is empty. -/
def validate (node : AST) (schema : Option PropertySchema) : ValidationResult :=
  let errors := match schema with
    | some s => validateNode validateFuel node s []
    | none => validateStructure validateFuel node []
  { valid := errors.isEmpty, errors := errors }

end Validator

/-- Two-state scan classifying the inputs made only of whitespace and comments: in the
outer state (`false`) only spaces, tabs, newlines or a comment opener may appear; after
a `#` the scan is inside a comment (`true`) until the next newline. -/
def blankScan : Bool → List Char → Bool
  | _, [] => true
  | false, c :: cs =>
    if c = ' ' ∨ c = '\t' ∨ c = '\n' then blankScan false cs
    else if c = '#' then blankScan true cs
    else false
  | true, c :: cs => if c = '\n' then blankScan false cs else blankScan true cs

/-- An input consisting of nothing but spaces, tabs, newlines and comments. -/
def blankChars (s : List Char) : Bool := blankScan false s

/-- The token kinds a blank input can produce: layout, comments and the end marker. -/
def trivialTok (t : Token) : Bool :=
  t.type == .INDENT || t.type == .NEWLINE || t.type == .COMMENT || t.type == .EOF

/-! Accessors used to state claims about concrete parse results. -/

/-- Whether a parse succeeded. -/
def isOkE (r : Except ParseErr AST) : Bool :=
  match r with
  | .ok _ => true
  | .error _ => false

/-- Keys of the root object of a successful parse. -/
def rootKeys (r : Except ParseErr AST) : Option (List (List Char)) :=
  match r with
  | .ok (.objn ps _) => some (ps.map Prod.fst)
  | _ => none

/-- Keys of the object stored under a given key of the root object. -/
def keysUnder (r : Except ParseErr AST) (k : List Char) : Option (List (List Char)) :=
  match r with
  | .ok (.objn ps _) =>
    match ps.find? (fun p => p.1 = k) with
    | some (_, .objn qs _) => some (qs.map Prod.fst)
    | _ => none
  | _ => none

/-- Keys of the first row object of the array stored under the first root key. -/
def firstItemKeys (r : Except ParseErr AST) : Option (List (List Char)) :=
  match r with
  | .ok (.objn ((_, .arrn (x :: _) _ _) :: _) _) => some (Validator.keysOf x)
  | _ => none

/-! Claim C1. -/

/-- The failing input of claim C1: a plain object holding the string "true". -/
def c1Input : JSValue := .obj [("a".data, .str "true".data)]

/-- The observed round trip of claim C1: encode, parse, convert back to a value. -/
def c1Observed : Option JSValue :=
  match Encoder.encode c1Input with
  | .ok text =>
    match Parser.parse text with
    | .ok ast => Converter.astToValue ast
    | .error _ => none
  | .error _ => none

/-- Claim C1 (code_bug evidence): the round-trip property fails on the plain value
mapping "a" to the string "true".  The encoder correctly quotes the reserved word,
producing the text `a: "true"`, but the tokenizer forgets that the token was quoted, so
the parser re-reads it as the boolean true: astToValue(parse(encode(value))) is the
object mapping "a" to the boolean true, which differs from the input value. -/
theorem C1_roundtrip_code_bug :
    Encoder.encode c1Input = .ok "a: \"true\"".data ∧
    c1Observed = some (.obj [("a".data, .bool true)]) ∧
    JSValue.obj [("a".data, .bool true)] ≠ c1Input := by
  refine ⟨rfl, rfl, ?_⟩
  simp [c1Input]

/-! Claim C10. -/

/-- Claim C10: parse accepts inputs whose root is not a key-value property: the bare
word "hello" parses to a primitive string root node, and "[1, 2]" parses to an inline
array root node with the two numeric items — no error is raised even though the format
documentation requires at least one top-level property. -/
theorem C10_bare_value_roots :
    Parser.parse "hello".data =
      .ok (.prim (.s "hello".data) .string false ⟨1, 1, none, none, none⟩) ∧
    Parser.parse "[1, 2]".data =
      .ok (.arrn [.prim (.n ⟨1, 0⟩) .number false ⟨1, 2, none, none, none⟩,
        .prim (.n ⟨2, 0⟩) .number false ⟨1, 5, none, none, none⟩] (some .inline)
        ⟨1, 1, none, none, none⟩) :=
  ⟨rfl, rfl⟩

/-! Claim C2. -/

/-- The rendered text of a primitive value (the successful result of
Encoder.encodePrimitive, which never fails on a primitive). -/
def primitiveText (v : JSValue) (qm : Encoder.QuoteMode) : List Char :=
  match v with
  | .null => "null".data
  | .str s => Encoder.encodeString s qm
  | .num q => Encoder.jsNumberToString q
  | .bool b => Encoder.encodeBoolean b
  | _ => []

/-- encodePrimitive succeeds on every primitive value, yielding its text. -/
theorem encodePrimitive_ok (v : JSValue) (qm : Encoder.QuoteMode)
    (h : Encoder.isPrimitiveValue v = true) :
    Encoder.encodePrimitive v qm = .ok (primitiveText v qm) := by
  cases v <;> simp [Encoder.isPrimitiveValue] at h <;> rfl

/-- encodeValue renders a primitive value inline with one unit of fuel. -/
theorem encodeValue_prim (fuel : Nat) (v : JSValue) (ctx : Encoder.EncodeCtx)
    (h : Encoder.isPrimitiveValue v = true) :
    Encoder.encodeValue (fuel + 1) v ctx =
      .ok
        { inline := true, text := primitiveText v ctx.quoteMode } := by
  cases v <;> simp [Encoder.isPrimitiveValue] at h <;> rfl

/-- Mapping encodePrimitive over an all-primitive list succeeds with the item
texts. -/
theorem mapM_encodePrimitive (items : List JSValue) (qm : Encoder.QuoteMode)
    (h : items.all Encoder.isPrimitiveValue = true) :
    items.mapM (fun item => Encoder.encodePrimitive item qm) =
      .ok (items.map (fun v => primitiveText v qm)) := by
  induction items with
  | nil => rfl
  | cons v rest ih =>
    simp only [List.all_cons, Bool.and_eq_true] at h
    rw [List.mapM_cons, encodePrimitive_ok v qm h.1, ih h.2]
    rfl

/-- The dash-item loop renders an all-primitive list to its inline items, given one
fuel unit per item plus one. -/
theorem encodeItems_prim (items : List JSValue) :
    ∀ (fuel : Nat) (ctx : Encoder.EncodeCtx),
      items.all Encoder.isPrimitiveValue = true → items.length + 1 ≤ fuel →
      Encoder.encodeItems fuel items ctx =
        .ok (items.map (fun v =>
          { inline := true, text := primitiveText v ctx.quoteMode })) := by
  induction items with
  | nil =>
    intro fuel ctx _ hfuel
    obtain ⟨f, rfl⟩ : ∃ f, fuel = f + 1 := ⟨fuel - 1, by omega⟩
    rfl
  | cons v rest ih =>
    intro fuel ctx hprim hfuel
    obtain ⟨f, rfl⟩ : ∃ f, fuel = f + 1 := ⟨fuel - 1, by omega⟩
    simp only [List.all_cons, Bool.and_eq_true] at hprim
    obtain ⟨g, rfl⟩ : ∃ g, f = g + 1 := by
      refine ⟨f - 1, ?_⟩
      simp only [List.length_cons] at hfuel
      omega
    rw [Encoder.encodeItems, encodeValue_prim g v ctx hprim.1,
      ih (g + 1) ctx hprim.2 (by simp only [List.length_cons] at hfuel; omega)]
    rfl

/-- Folding the formatArray step over inline comment-free items appends one dash line
per item. -/
theorem formatArrayStep_foldl (indent : List Char) (ts : List (List Char)) :
    ∀ acc, (ts.map (fun t => ({ inline := true, text := t } : Encoder.FormattedValue))).foldl
        (Encoder.formatArrayStep indent) acc =
      acc ++ ts.map (fun t => indent ++ '-' :: ' ' :: t) := by
  induction ts with
  | nil => intro acc; simp
  | cons t rest ih =>
    intro acc
    simp only [List.map_cons, List.foldl_cons, ih]
    simp [Encoder.formatArrayStep]

/-- formatArray on inline comment-free items is the newline-joined dash lines. -/
theorem formatArray_inline (ts : List (List Char)) (ctx : Encoder.EncodeCtx) :
    Encoder.formatArray
        (ts.map (fun t => ({ inline := true, text := t } : Encoder.FormattedValue))) ctx =
      { inline := false,
        text := List.intercalate ctx.newline
          (ts.map (fun t => Encoder.indentString ctx ++ '-' :: ' ' :: t)) } := by
  unfold Encoder.formatArray
  rw [formatArrayStep_foldl]
  simp

/-- encodeDashArray on an all-primitive list is the one-dash-per-line rendering. -/
theorem encodeDashArray_prim (items : List JSValue) (fuel : Nat)
    (ctx : Encoder.EncodeCtx) (hprim : items.all Encoder.isPrimitiveValue = true)
    (hfuel : items.length + 2 ≤ fuel) :
    Encoder.encodeDashArray fuel items ctx =
      .ok
        { inline := false,
          text := List.intercalate ctx.newline (items.map (fun v =>
          Encoder.indentString ctx ++ '-' :: ' ' :: primitiveText v ctx.quoteMode)) } := by
  obtain ⟨f, rfl⟩ : ∃ f, fuel = f + 1 := ⟨fuel - 1, by omega⟩
  rw [Encoder.encodeDashArray,
    encodeItems_prim items f { ctx with indentLevel := ctx.indentLevel + 1 } hprim (by omega)]
  have : (items.map (fun v =>
      ({ inline := true,
           text := primitiveText v ({ ctx with indentLevel := ctx.indentLevel + 1 }).quoteMode }
        : Encoder.FormattedValue))) =
      items.map (fun t => ({ inline := true, text := primitiveText t ctx.quoteMode }
        : Encoder.FormattedValue)) := rfl
  dsimp only
  rw [this, show (items.map (fun t => ({ inline := true, text := primitiveText t ctx.quoteMode }
        : Encoder.FormattedValue))) =
      (items.map (fun t => primitiveText t ctx.quoteMode)).map
        (fun t => ({ inline := true, text := t } : Encoder.FormattedValue)) by
    simp]
  rw [formatArray_inline]
  simp only [List.map_map]
  rfl

/-- encodePrimitiveArray renders inline under the thresholds and falls back to the
dash form otherwise. -/
theorem encodePrimitiveArray_spec (items : List JSValue) (fuel : Nat)
    (ctx : Encoder.EncodeCtx) (hprim : items.all Encoder.isPrimitiveValue = true)
    (hfuel : items.length + 3 ≤ fuel) :
    Encoder.encodePrimitiveArray fuel items ctx =
      (let inlineText := '[' :: List.intercalate (',' :: [' '])
          (items.map (fun v => primitiveText v ctx.quoteMode)) ++ [']']
       if items.length ≤ Encoder.INLINE_PRIMITIVE_MAX_ITEMS ∧
          inlineText.length ≤ Encoder.INLINE_PRIMITIVE_MAX_LENGTH then
         .ok { inline := true, text := inlineText }
       else
         .ok
           { inline := false,
             text := List.intercalate ctx.newline (items.map (fun v =>
             Encoder.indentString ctx ++ '-' :: ' ' :: primitiveText v ctx.quoteMode)) }) := by
  obtain ⟨f, rfl⟩ : ∃ f, fuel = f + 1 := ⟨fuel - 1, by omega⟩
  rw [Encoder.encodePrimitiveArray, mapM_encodePrimitive items ctx.quoteMode hprim]
  dsimp only
  by_cases hc : items.length ≤ Encoder.INLINE_PRIMITIVE_MAX_ITEMS ∧
      ('[' :: List.intercalate (',' :: [' '])
        (items.map (fun v => primitiveText v ctx.quoteMode)) ++ [']']).length ≤
        Encoder.INLINE_PRIMITIVE_MAX_LENGTH
  · have hb : Encoder.shouldRenderInlinePrimitiveArray items.length
        ('[' :: List.intercalate (',' :: [' '])
          (items.map (fun v => primitiveText v ctx.quoteMode)) ++ [']']).length = true := by
      simp only [Encoder.shouldRenderInlinePrimitiveArray, Bool.and_eq_true,
        decide_eq_true_eq]
      exact hc
    rw [if_pos hb, if_pos hc]
  · have hb : Encoder.shouldRenderInlinePrimitiveArray items.length
        ('[' :: List.intercalate (',' :: [' '])
          (items.map (fun v => primitiveText v ctx.quoteMode)) ++ [']']).length = false := by
      simp only [Encoder.shouldRenderInlinePrimitiveArray, Bool.and_eq_true,
        decide_eq_true_eq, Bool.and_eq_false_iff]
      by_contra hcon
      simp only [Bool.and_eq_false_iff, decide_eq_false_iff_not, not_or, not_not] at hcon
      exact hc ⟨hcon.1, hcon.2⟩
    rw [if_neg hc, hb]
    simp only [Bool.false_eq_true, if_false]
    exact encodeDashArray_prim items f ctx hprim (by omega)

/-- Claim C2: for every array whose items are all primitive values, encode renders the
inline form `[v1, v2, …]` exactly when the item count is at most 5 and the rendered
inline text is at most 80 characters long; otherwise it renders the one-dash-per-line
multi-line form. -/
theorem C2_inline_primitive_array_threshold :
    ∀ (fuel : Nat) (items : List JSValue) (ctx : Encoder.EncodeCtx)
      (pk : Option (List Char)),
      items.all Encoder.isPrimitiveValue = true → items.length + 4 ≤ fuel →
      Encoder.encodeArray fuel items ctx pk =
        (let inlineText := '[' :: List.intercalate (',' :: [' '])
            (items.map (fun v => primitiveText v ctx.quoteMode)) ++ [']']
         if items.length ≤ Encoder.INLINE_PRIMITIVE_MAX_ITEMS ∧
            inlineText.length ≤ Encoder.INLINE_PRIMITIVE_MAX_LENGTH then
           .ok { inline := true, text := inlineText }
         else
           .ok
             { inline := false,
               text := List.intercalate ctx.newline (items.map (fun v =>
               Encoder.indentString ctx ++ '-' :: ' ' :: primitiveText v ctx.quoteMode)) }) := by
  intro fuel items ctx pk hprim hfuel
  obtain ⟨f, rfl⟩ : ∃ f, fuel = f + 1 := ⟨fuel - 1, by omega⟩
  rw [Encoder.encodeArray.eq_def]
  dsimp only
  cases items with
  | nil => simp +decide [Encoder.INLINE_PRIMITIVE_MAX_LENGTH]
  | cons v rest =>
    rw [if_neg (by simp), if_pos hprim]
    exact encodePrimitiveArray_spec (v :: rest) f ctx hprim
      (by simp only [List.length_cons] at hfuel ⊢; omega)

/-- Witness for claim C2: five one-character strings render inline, six render as dash
lines, via the theorem applied at concrete inputs. -/
theorem C2_inline_primitive_array_threshold_witness :
    (([.str "a".data, .str "b".data, .str "c".data, .str "d".data, .str "e".data]
        : List JSValue).all Encoder.isPrimitiveValue = true) ∧
    ([.str "a".data, .str "b".data, .str "c".data, .str "d".data, .str "e".data]
        : List JSValue).length + 4 ≤ 20 ∧
    Encoder.encodeArray 20 [.str "a".data, .str "b".data, .str "c".data, .str "d".data,
        .str "e".data] Encoder.defaultOptionsCtx none =
      (let inlineText := '[' :: List.intercalate (',' :: [' '])
          (([.str "a".data, .str "b".data, .str "c".data, .str "d".data, .str "e".data]
            : List JSValue).map
            (fun v => primitiveText v Encoder.defaultOptionsCtx.quoteMode)) ++ [']']
       if ([.str "a".data, .str "b".data, .str "c".data, .str "d".data, .str "e".data]
            : List JSValue).length ≤ Encoder.INLINE_PRIMITIVE_MAX_ITEMS ∧
          inlineText.length ≤ Encoder.INLINE_PRIMITIVE_MAX_LENGTH then
         .ok { inline := true, text := inlineText }
       else
         .ok
           { inline := false,
             text := List.intercalate Encoder.defaultOptionsCtx.newline
                 (([.str "a".data, .str "b".data, .str "c".data, .str "d".data,
                     .str "e".data]
                    : List JSValue).map (fun v =>
                   Encoder.indentString Encoder.defaultOptionsCtx ++ '-' :: ' ' ::
                     primitiveText v Encoder.defaultOptionsCtx.quoteMode)) }) :=
  ⟨rfl, by simp,
    C2_inline_primitive_array_threshold 20
      [.str "a".data, .str "b".data, .str "c".data, .str "d".data, .str "e".data]
      Encoder.defaultOptionsCtx none rfl (by simp)⟩

/-! Claim C3. -/

/-- The more-rows input for claim C3: a compact array declared with one row but given
two lines at the row indentation. -/
def c3MoreRowsInput : List Char := "users[1]:\n  a: 1\n  a: 2".data

/-- Counterexample to claim C3: with more rows than the declared length present at the
row indentation, parse does NOT raise an error — it consumes exactly the declared
number of rows and parses the remaining row as a property of the enclosing object (the
root gains the key "a"). -/
theorem C3_more_rows_accepted_counterexample :
    isOkE (Parser.parse c3MoreRowsInput) = true ∧
    rootKeys (Parser.parse c3MoreRowsInput) = some ["users".data, "a".data] :=
  ⟨rfl, rfl⟩

/-! Claim C4. -/

/-- The extra-field input for claim C4: one declared field, a row carrying it plus an
undeclared one. -/
def c4ExtraFieldInput : List Char := ("users[1]" ++ String.mk [lbrace] ++ "a" ++
  String.mk [rbrace] ++ ":\n  a: 1, b: 2").data

/-- Counterexample to claim C4: a compact row containing a field name that is not in
the declared list is NOT rejected — the parse succeeds and the row object carries both
the declared field "a" and the undeclared field "b". -/
theorem C4_extra_field_accepted_counterexample :
    isOkE (Parser.parse c4ExtraFieldInput) = true ∧
    firstItemKeys (Parser.parse c4ExtraFieldInput) = some ["a".data, "b".data] :=
  ⟨rfl, rfl⟩

/-- Claim C3, amended: compact-row counting.  Whenever parseCompactArrayRows returns
an array, that array has exactly the declared number of rows (so fewer rows than
declared can never parse successfully — the count check fails with a parse error, as
the second conjunct shows on the specification's own example); a row indented deeper
than the first row raises a parse error (third conjunct); but when MORE than the
declared number of rows is present at the row indentation, the compact array consumes
exactly the first N rows and the remaining rows are parsed as content of the enclosing
object instead of raising an error (last conjunct). -/
theorem C3_compact_row_count_amended :
    (∀ (fuel : Nat) (ctx : Parser.Ctx) (header : Parser.CompactHeader)
        (rowIndent : Nat) (startTok : Token) (items : List AST)
        (fmt : Option ArrFormat) (meta : NodeMeta) (ctx2 : Parser.Ctx),
      Parser.parseCompactArrayRows fuel ctx header rowIndent startTok =
        .ok (.arrn items fmt meta, ctx2) → items.length = header.length) ∧
    Parser.parse "users[2]:\n  name: Alice, age: 30".data =
      .error ⟨"Expected 2 rows in compact array but found 1", 1, 1, .INVALID_SYNTAX,
        none, none, none⟩ ∧
    Parser.parse "users[2]:\n  a: 1\n   b: 2".data =
      .error ⟨"Unexpected indentation in compact array row", 3, 1, .INVALID_SYNTAX,
        none, none, none⟩ ∧
    rootKeys (Parser.parse c3MoreRowsInput) = some ["users".data, "a".data] := by
  refine ⟨?_, rfl, rfl, rfl⟩
  intro fuel ctx header rowIndent startTok items fmt meta ctx2 h
  match fuel with
  | 0 => simp [Parser.parseCompactArrayRows] at h
  | f + 1 =>
    rw [Parser.parseCompactArrayRows] at h
    cases hloop : Parser.parseCompactRowsLoop f ctx header rowIndent [] with
    | error e => rw [hloop] at h; simp at h
    | ok p =>
      obtain ⟨pitems, pctx⟩ := p
      rw [hloop] at h
      dsimp only at h
      by_cases hlen : pitems.length ≠ header.length
      · rw [if_pos hlen] at h
        simp at h
      · rw [if_neg hlen] at h
        simp only [Except.ok.injEq, Prod.mk.injEq, AST.arrn.injEq] at h
        obtain ⟨⟨hi, -, -⟩, -⟩ := h
        rw [← hi]
        omega

/-- Tokens of one well-formed compact row at indentation 2, used to exercise the
amended row-count statement. -/
def c3WitnessTokens : List Token :=
  [⟨.INDENT, "  ".data, 2, 1⟩, ⟨.KEY, "a".data, 2, 3⟩, ⟨.COLON, ":".data, 2, 4⟩,
   ⟨.INDENT, " ".data, 2, 5⟩, ⟨.VALUE, "1".data, 2, 6⟩, ⟨.EOF, [], 2, 7⟩]

/-- Witness for claim C3: a concrete one-row run of parseCompactArrayRows under a
header declaring length one succeeds, and the amended theorem yields that exactly one
row was collected. -/
theorem C3_compact_row_count_amended_witness :
    Parser.parseCompactArrayRows 50 ⟨c3WitnessTokens, 1, 1⟩ ⟨"users".data, 1, none⟩ 2
        ⟨.KEY, "users".data, 1, 1⟩ =
      .ok (.arrn [.objn [("a".data, .prim (.n ⟨1, 0⟩) .number false ⟨2, 6, none, none, none⟩)]
          ⟨2, 3, none, none, none⟩] (some .compact) ⟨1, 1, none, none, none⟩,
        ⟨[⟨.EOF, [], 2, 7⟩], 2, 6⟩) ∧
    ([.objn [("a".data, .prim (.n ⟨1, 0⟩) .number false ⟨2, 6, none, none, none⟩)]
        ⟨2, 3, none, none, none⟩] : List AST).length =
      (⟨"users".data, 1, none⟩ : Parser.CompactHeader).length :=
  ⟨rfl, C3_compact_row_count_amended.1 50 ⟨c3WitnessTokens, 1, 1⟩ ⟨"users".data, 1, none⟩ 2
    ⟨.KEY, "users".data, 1, 1⟩ _ _ _ _ rfl⟩

/-- Claim C4, amended: declared-field checking in compact rows.  Every successfully
parsed compact row contains every declared field name (first conjunct — so a row
missing a declared field is rejected, and the second conjunct shows the concrete
missing-field parse error); but a row may additionally contain field names NOT in the
declared list — undeclared extra fields are accepted and kept (last conjunct). -/
theorem C4_compact_fields_amended :
    (∀ (fuel : Nat) (ctx : Parser.Ctx) (header : Parser.CompactHeader)
        (ps : List (List Char × AST)) (meta : NodeMeta) (ctx2 : Parser.Ctx),
      Parser.parseCompactRow fuel ctx header = .ok (.objn ps meta, ctx2) →
      ∀ f ∈ header.fields.getD [], ps.any (fun p => p.1 = f) = true) ∧
    Parser.parse ("users[1]" ++ String.mk [lbrace] ++ "a,b" ++ String.mk [rbrace] ++
        ":\n  a: 1").data =
      .error ⟨"Missing \"b\" in compact array row", 2, 3, .INVALID_SYNTAX,
        none, none, none⟩ ∧
    firstItemKeys (Parser.parse c4ExtraFieldInput) = some ["a".data, "b".data] := by
  refine ⟨?_, rfl, rfl⟩
  intro fuel ctx header ps meta ctx2 h
  match fuel with
  | 0 => simp [Parser.parseCompactRow] at h
  | f + 1 =>
    rw [Parser.parseCompactRow] at h
    cases hloop : Parser.parseCompactRowLoop f ctx none [] with
    | error e => rw [hloop] at h; simp at h
    | ok p =>
      obtain ⟨props, stk, pctx⟩ := p
      rw [hloop] at h
      dsimp only at h
      by_cases hempty : props.isEmpty
      · rw [if_pos hempty] at h
        simp at h
      · rw [if_neg hempty] at h
        match hfields : header.fields with
        | none =>
          intro f hf
          simp at hf
        | some [] =>
          intro f hf
          simp at hf
        | some (f0 :: ftl) =>
          have hhf : Parser.headerHasFields header = true := by
            unfold Parser.headerHasFields
            rw [hfields]
            simp
          rw [if_pos hhf, hfields] at h
          simp only [Option.getD_some] at h
          cases hfind : (f0 :: ftl).find?
              (fun fl => !(props.any (fun p => p.1 = fl))) with
          | some fbad =>
            rw [hfind] at h
            simp at h
          | none =>
            rw [hfind] at h
            simp only [Except.ok.injEq, Prod.mk.injEq, AST.objn.injEq] at h
            obtain ⟨⟨hp, -⟩, -⟩ := h
            intro f hf
            simp only [Option.getD_some] at hf
            have := List.find?_eq_none.mp hfind f hf
            rw [← hp]
            simpa using this

/-- Tokens of one compact row carrying the declared field "a". -/
def c4WitnessTokens : List Token :=
  [⟨.KEY, "a".data, 2, 3⟩, ⟨.COLON, ":".data, 2, 4⟩, ⟨.INDENT, " ".data, 2, 5⟩,
   ⟨.VALUE, "1".data, 2, 6⟩, ⟨.EOF, [], 2, 7⟩]

/-- Witness for claim C4: a concrete row parse under a header declaring the field "a"
succeeds, and the amended theorem yields that the row contains every declared
field. -/
theorem C4_compact_fields_amended_witness :
    Parser.parseCompactRow 50 ⟨c4WitnessTokens, 1, 1⟩ ⟨"users".data, 1, some ["a".data]⟩ =
      .ok (.objn [("a".data, .prim (.n ⟨1, 0⟩) .number false ⟨2, 6, none, none, none⟩)]
        ⟨2, 3, none, none, none⟩, ⟨[⟨.EOF, [], 2, 7⟩], 2, 6⟩) ∧
    (∀ f ∈ (Parser.CompactHeader.mk "users".data 1 (some ["a".data])).fields.getD [],
      ([("a".data, AST.prim (.n ⟨1, 0⟩) .number false ⟨2, 6, none, none, none⟩)]).any
        (fun p => p.1 = f) = true) :=
  ⟨rfl, C4_compact_fields_amended.1 50 ⟨c4WitnessTokens, 1, 1⟩
    ⟨"users".data, 1, some ["a".data]⟩ _ _ _ rfl⟩

/-! Claim C5. -/

/-- A character admissible in the outer blank-scan state is a space, tab or newline
continuing in the outer state, or a hash entering a comment. -/
theorem blankScan_false_cons {c : Char} {cs : List Char}
    (h : blankScan false (c :: cs) = true) :
    ((c = ' ' ∨ c = '\t' ∨ c = '\n') ∧ blankScan false cs = true) ∨
      (c = '#' ∧ blankScan true cs = true) := by
  rw [blankScan] at h
  by_cases h1 : c = ' ' ∨ c = '\t' ∨ c = '\n'
  · rw [if_pos h1] at h
    exact .inl ⟨h1, h⟩
  · rw [if_neg h1] at h
    by_cases h2 : c = '#'
    · rw [if_pos h2] at h
      exact .inr ⟨h2, h⟩
    · rw [if_neg h2] at h
      cases h

/-- Dropping leading blanks preserves the outer blank-scan state. -/
theorem blankScan_dropWhile : ∀ s : List Char, blankScan false s = true →
    blankScan false (s.dropWhile Tokenizer.isBlank) = true
  | [], h => h
  | c :: cs, h => by
    rw [List.dropWhile_cons]
    by_cases hc : Tokenizer.isBlank c = true
    · rw [if_pos hc]
      refine blankScan_dropWhile cs ?_
      have hsp : c = ' ' ∨ c = '\t' := by
        simpa [Tokenizer.isBlank] using hc
      rcases hsp with rfl | rfl <;> simpa +decide [blankScan] using h
    · rw [if_neg hc]
      exact h

/-- Dropping a comment body lands back in the outer blank-scan state. -/
theorem blankScan_comment_drop : ∀ cs : List Char, blankScan true cs = true →
    blankScan false (cs.dropWhile (fun x => !(x == '\n'))) = true
  | [], _ => rfl
  | c :: cs, h => by
    rw [List.dropWhile_cons]
    by_cases hc : c = '\n'
    · subst hc
      rw [if_neg (by simp)]
      have h2 : blankScan false cs = true := by simpa +decide [blankScan] using h
      simpa +decide [blankScan] using h2
    · rw [if_pos (by simp [hc])]
      refine blankScan_comment_drop cs ?_
      rw [blankScan] at h
      rwa [if_neg hc] at h

/-- dropWhile preserves an all-predicate. -/
theorem all_dropWhile {α : Type} (p q : α → Bool) : ∀ l : List α,
    l.all q = true → (l.dropWhile p).all q = true
  | [], h => h
  | a :: l, h => by
    rw [List.dropWhile_cons]
    rw [List.all_cons, Bool.and_eq_true] at h
    by_cases hp : p a = true
    · rw [if_pos hp]
      exact all_dropWhile p q l h.2
    · rw [if_neg hp]
      rw [List.all_cons, Bool.and_eq_true]
      exact h

/-- The head surviving a dropWhile fails the dropped predicate. -/
theorem head_dropWhile_false {α : Type} (p : α → Bool) : ∀ (l : List α) (a : α),
    (l.dropWhile p).head? = some a → p a = false
  | [], _, h => by cases h
  | b :: l, a, h => by
    rw [List.dropWhile_cons] at h
    by_cases hp : p b = true
    · rw [if_pos hp] at h
      exact head_dropWhile_false p l a h
    · rw [if_neg hp] at h
      rw [List.head?_cons, Option.some.injEq] at h
      subst h
      simpa using hp

/-- The optional INDENT prefix attached by the tokenizer blank branch keeps the token
list trivial. -/
theorem all_indentCons (w line col : Nat) (ts : List Token)
    (h : ts.all trivialTok = true) :
    (if w > 0 then
        ({ type := .INDENT, value := List.replicate w ' ', line := line, column := col }
          : Token) :: ts
      else ts).all trivialTok = true := by
  split
  · rw [List.all_cons, Bool.and_eq_true]
    exact ⟨rfl, h⟩
  · exact h

/-- One blank-branch step of the tokenizer on a blank input, given the induction
hypothesis for the smaller fuel. -/
theorem tokenizeLoop_blank_aux (f line col : Nat) (c : Char) (cs : List Char)
    (hc : Tokenizer.isBlank c = true)
    (hb : blankScan false (c :: cs) = true)
    (hf : cs.length + 2 ≤ f + 1)
    (ih : ∀ (line col : Nat) (s : List Char), blankScan false s = true →
      s.length + 1 ≤ f →
      ∃ ts, Tokenizer.tokenizeLoop f line col s = .ok ts ∧ ts.all trivialTok = true) :
    ∃ ts, Tokenizer.tokenizeLoop (f + 1) line col (c :: cs) = .ok ts ∧
      ts.all trivialTok = true := by
  have hlen : ((c :: cs).dropWhile Tokenizer.isBlank).length ≤ cs.length := by
    rw [List.dropWhile_cons, if_pos hc]
    exact (List.dropWhile_sublist _).length_le
  have hbd : blankScan false ((c :: cs).dropWhile Tokenizer.isBlank) = true :=
    blankScan_dropWhile _ hb
  simp only [Tokenizer.tokenizeLoop]
  rw [if_pos hc]
  split
  · rename_i r2 heq
    have hb2 : blankScan false r2 = true := by
      rw [heq] at hbd
      simpa +decide [blankScan] using hbd
    have hl2 : r2.length + 1 ≤ cs.length := by
      rw [heq] at hlen
      simpa using hlen
    exact ih (line + 1) 1 r2 hb2 (by omega)
  · obtain ⟨ts0, h0, ha0⟩ := ih line (col + ((c :: cs).takeWhile Tokenizer.isBlank).length)
      ((c :: cs).dropWhile Tokenizer.isBlank) hbd (by omega)
    rw [h0]
    exact ⟨_, rfl, all_indentCons _ _ _ ts0 ha0⟩

/-- Tokenizing a blank input succeeds and produces only layout, comment and EOF
tokens. -/
theorem tokenizeLoop_blank : ∀ (fuel line col : Nat) (s : List Char),
    blankScan false s = true → s.length + 1 ≤ fuel →
    ∃ ts, Tokenizer.tokenizeLoop fuel line col s = .ok ts ∧
      ts.all trivialTok = true := by
  intro fuel
  induction fuel with
  | zero => intro line col s _ hf; omega
  | succ f ih =>
    intro line col s hb hf
    cases s with
    | nil => exact ⟨[{ type := .EOF, value := [], line := line, column := col }], rfl, rfl⟩
    | cons c cs =>
      simp only [List.length_cons] at hf
      rcases blankScan_false_cons hb with ⟨hc, hcs⟩ | ⟨rfl, hcs⟩
      · rcases hc with rfl | rfl | rfl
        · exact tokenizeLoop_blank_aux f line col ' ' cs rfl hb (by omega) ih
        · exact tokenizeLoop_blank_aux f line col '\t' cs rfl hb (by omega) ih
        · simp only [Tokenizer.tokenizeLoop]
          rw [if_pos trivial]
          obtain ⟨ts0, h0, ha0⟩ := ih (line + 1) 1 cs hcs (by omega)
          rw [h0]
          refine ⟨_, rfl, ?_⟩
          rw [List.all_cons, Bool.and_eq_true]
          exact ⟨rfl, ha0⟩
      · simp only [Tokenizer.tokenizeLoop]
        rw [if_pos trivial]
        obtain ⟨ts0, h0, ha0⟩ := ih line
          (col + 1 + (cs.takeWhile (fun x => !(x == '\n'))).length)
          (cs.dropWhile (fun x => !(x == '\n')))
          (blankScan_comment_drop cs hcs)
          (by
            have h1 : (cs.dropWhile (fun x => !(x == '\n'))).length ≤ cs.length :=
              (List.dropWhile_sublist _).length_le
            omega)
        rw [h0]
        refine ⟨_, rfl, ?_⟩
        rw [List.all_cons, Bool.and_eq_true]
        exact ⟨rfl, ha0⟩

/-- After the leading-comment loop of parse, a trivial token stream is at its end. -/
theorem skipLeadingComments_eof : ∀ (n : Nat) (ctx : Parser.Ctx),
    ctx.rest.all trivialTok = true →
    (∀ t, ctx.rest.head? = some t → Parser.isWsTok t = false) →
    ctx.rest.length < n →
    (Parser.isEOFT (Parser.skipLeadingCommentsF n ctx)).1 = true := by
  intro n
  induction n with
  | zero => intro ctx _ _ h; omega
  | succ m ih =>
    intro ctx hall hhead hlen
    rw [Parser.skipLeadingCommentsF]
    cases hrest : ctx.rest with
    | nil =>
      simp [Parser.isEOFT, Parser.skipWhitespaceT, Parser.peekT, hrest]
    | cons t r =>
      dsimp only
      rw [hrest] at hall hlen
      rw [List.all_cons, Bool.and_eq_true] at hall
      obtain ⟨ht, hr⟩ := hall
      have hws := hhead t (by rw [hrest]; rfl)
      have ht2 : t.type = TokenType.COMMENT ∨ t.type = TokenType.EOF := by
        cases htt : t.type <;> simp [trivialTok, Parser.isWsTok, htt] at ht hws ⊢
      simp only [List.length_cons] at hlen
      rcases ht2 with hcmt | heof
      · rw [if_pos (by simp [hcmt])]
        refine ih _ (all_dropWhile _ _ r hr)
          (fun t2 h2 => head_dropWhile_false _ r t2 h2) ?_
        have h1 : (r.dropWhile Parser.isWsTok).length ≤ r.length :=
          (List.dropWhile_sublist _).length_le
        simp only [Parser.skipWhitespaceT]
        omega
      · rw [if_neg (by simp [heof])]
        simp [Parser.isEOFT, Parser.skipWhitespaceT, Parser.peekT, hrest,
          List.dropWhile_cons, hws, heof]

/-- parse rejects a token stream holding only layout, comments and the end marker with
the empty-input error. -/
theorem parseTokens_trivial (ts : List Token) (h : ts.all trivialTok = true) :
    Parser.parseTokens ts = .error Parser.emptyInputErr := by
  have h1 : (Parser.isEOFT (Parser.skipLeadingCommentsF (ts.length + 1)
      (Parser.skipWhitespaceT { rest := ts, line := 1, column := 1 }))).1 = true := by
    apply skipLeadingComments_eof
    · exact all_dropWhile _ _ ts h
    · exact fun t ht => head_dropWhile_false _ ts t ht
    · exact Nat.lt_succ_of_le (List.dropWhile_sublist _).length_le
  have hpair : Parser.isEOFT (Parser.skipLeadingCommentsF (ts.length + 1)
      (Parser.skipWhitespaceT { rest := ts, line := 1, column := 1 })) =
      (true, (Parser.isEOFT (Parser.skipLeadingCommentsF (ts.length + 1)
        (Parser.skipWhitespaceT { rest := ts, line := 1, column := 1 }))).2) := by
    rw [← h1]
  simp only [Parser.parseTokens]
  rw [hpair]
  simp

/-- Claim C5: parse raises the empty-input error on every input made only of
whitespace, newlines and comments; in particular the empty string is rejected, and the
error carries the EMPTY_INPUT category. -/
theorem C5_blank_input_empty_error :
    (∀ s : List Char, blankChars s = true →
      Parser.parse s = .error Parser.emptyInputErr) ∧
    Parser.parse [] = .error Parser.emptyInputErr ∧
    Parser.emptyInputErr.code = .EMPTY_INPUT := by
  refine ⟨?_, ?_, rfl⟩
  · intro s hs
    obtain ⟨ts, hok, hall⟩ := tokenizeLoop_blank (s.length + 1) 1 1 s hs (Nat.le_refl _)
    show (Tokenizer.tokenize s).bind Parser.parseTokens = .error Parser.emptyInputErr
    rw [show Tokenizer.tokenize s = .ok ts from hok]
    exact parseTokens_trivial ts hall
  · rfl

/-- Witness for claim C5: a concrete input of blanks, a newline and a comment line is
rejected with the empty-input error, via the theorem applied at that input. -/
theorem C5_blank_input_empty_error_witness :
    blankChars "  \n# a comment\n\t\n".data = true ∧
    Parser.parse "  \n# a comment\n\t\n".data = .error Parser.emptyInputErr :=
  ⟨rfl, C5_blank_input_empty_error.1 "  \n# a comment\n\t\n".data rfl⟩

/-! Claim C6. -/

/-- Claim C6: indentation scoping.  Parsing `a:\n  b: 1\n  c: 2\nd: 3` yields a root
object whose keys are exactly `a` and `d`, with `a` an object whose keys are exactly
`b` and `c` (so `d` is not nested under `a`); a line deeper than the base indentation
also continues the current object (third conjunct); and in general, in the object
property loop, a line whose measured indentation is strictly below the base
indentation ends the current object level without consuming anything (last
conjunct, stated for the ordinary entry without the dash-item inline-start
allowance). -/
theorem C6_indentation_scoping :
    rootKeys (Parser.parse "a:\n  b: 1\n  c: 2\nd: 3".data) =
      some ["a".data, "d".data] ∧
    keysUnder (Parser.parse "a:\n  b: 1\n  c: 2\nd: 3".data) "a".data =
      some ["b".data, "c".data] ∧
    keysUnder (Parser.parse "a:\n  b: 1\n    c: 2".data) "a".data =
      some ["b".data, "c".data] ∧
    (∀ (fuel : Nat) (ctx : Parser.Ctx) (curInd : Nat) (used : Bool)
        (startTok : Option Token) (props : List (List Char × AST)) (t : Token)
        (r : List Token),
      ctx.rest = t :: r → t.type ≠ .EOF → Parser.measureIndentation ctx < curInd →
      Parser.parseObjectLoop (fuel + 1) ctx curInd false used startTok props =
        Parser.finishObject startTok props ctx) := by
  refine ⟨rfl, rfl, rfl, ?_⟩
  intro fuel ctx curInd used startTok props t r hrest htype hind
  obtain ⟨rest, line, col⟩ := ctx
  simp only [Parser.Ctx.rest] at hrest
  subst hrest
  simp only [Parser.parseObjectLoop]
  have ht : (t.type == TokenType.EOF) = false := by
    simpa using htype
  simp [ht, hind]

/-- Witness for claim C6: the loop-break conjunct applied at a concrete state — a
root-level key line at indentation 0 seen while parsing an object whose base
indentation is 2. -/
theorem C6_indentation_scoping_witness :
    (Parser.Ctx.mk [⟨.KEY, "d".data, 4, 1⟩, ⟨.EOF, [], 4, 5⟩] 3 6).rest =
      ⟨.KEY, "d".data, 4, 1⟩ :: [⟨.EOF, [], 4, 5⟩] ∧
    (⟨.KEY, "d".data, 4, 1⟩ : Token).type ≠ .EOF ∧
    Parser.measureIndentation (Parser.Ctx.mk [⟨.KEY, "d".data, 4, 1⟩, ⟨.EOF, [], 4, 5⟩] 3 6) < 2 ∧
    Parser.parseObjectLoop 6 (Parser.Ctx.mk [⟨.KEY, "d".data, 4, 1⟩, ⟨.EOF, [], 4, 5⟩] 3 6) 2
        false false (some ⟨.KEY, "b".data, 2, 3⟩)
        [("b".data, .nullv ⟨2, 6, none, none, none⟩)] =
      Parser.finishObject (some ⟨.KEY, "b".data, 2, 3⟩)
        [("b".data, .nullv ⟨2, 6, none, none, none⟩)]
        (Parser.Ctx.mk [⟨.KEY, "d".data, 4, 1⟩, ⟨.EOF, [], 4, 5⟩] 3 6) :=
  ⟨rfl, by decide, by decide,
    C6_indentation_scoping.2.2.2 5 _ 2 false (some ⟨.KEY, "b".data, 2, 3⟩)
      [("b".data, .nullv ⟨2, 6, none, none, none⟩)] ⟨.KEY, "d".data, 4, 1⟩
      [⟨.EOF, [], 4, 5⟩] rfl (by decide) (by decide)⟩

/-! Claim C7. -/

/-- Claim C7 counterexample: the string "00" matches the numeric-literal grammar the
claim names (the parser grammar, `numericLoose`), yet needsQuoting("00") is false —
the encoder checks the stricter no-leading-zero grammar, under which "00" is not
numeric and every character is a safe bareword character. -/
theorem C7_leading_zero_counterexample :
    Parser.numericLoose "00".data = true ∧ Encoder.needsQuoting "00".data = false :=
  ⟨rfl, rfl⟩

/-- The quoting condition exactly as claim C7 lists it, amended in its numeric clause:
empty, differs from its trim (leading/trailing whitespace), contains a newline,
carriage return or tab, contains a reserved character, matches the strict (no leading
zeros) numeric grammar, equals a reserved word, or contains a character outside
letters/digits/dot/underscore/hyphen. -/
def needsQuotingSpec (s : List Char) : Bool :=
  decide (s.length = 0) || decide (s ≠ Parser.jsTrim s) ||
  (s.any (fun c => c == '\n') || s.any (fun c => c == '\r') ||
    s.any (fun c => c == '\t')) ||
  s.any Encoder.isReservedChar || Parser.numericStrict s ||
  decide (s = "true".data ∨ s = "false".data ∨ s = "null".data) ||
  !(s.all Encoder.isSafeBareChar)

/-- Claim C7, amended: needsQuoting(s) is true exactly when s is empty, or has leading
or trailing whitespace, or contains a newline/carriage-return/tab, or contains a
reserved character, or matches the numeric-literal grammar WITHOUT leading zeros
(the integer part is 0 or starts with a nonzero digit — this is the one amendment
forced by the "00" counterexample), or is one of true/false/null, or contains a
character outside the safe bareword class. -/
theorem C7_needsQuoting_amended :
    ∀ s : List Char, Encoder.needsQuoting s = needsQuotingSpec s := by
  intro s
  unfold Encoder.needsQuoting needsQuotingSpec
  split_ifs with h1 h2 h3 h4 h5 h6
  · simp [h1]
  · simp [h2]
  · simp [h3]
  · simp [h4]
  · simp [h5]
  · simp [h6]
  · have hne : s ≠ [] := by
      intro he
      exact h1 (by simp [he])
    simp [h1, h2, h3, h4, h5, h6, hne]

/-! Claim C8. -/

/-- Claim C8: dash disambiguation in the tokenizer.  When the next non-blank character
after a dash is a decimal digit, the tokenizer emits no DASH token and handles the
dash through unquoted-value reading (the emitted token is a KEY or VALUE whose text
starts with the dash); otherwise it emits a DASH token and consumes the spaces/tabs
immediately after the dash without emitting any token — in particular no INDENT — for
them. -/
theorem C8_dash_lookahead :
    ∀ (fuel line col : Nat) (cs : List Char),
      (Tokenizer.dashStartsNumber cs = true →
        Tokenizer.tokenizeLoop (fuel + 1) line col ('-' :: cs) =
          (let value := ('-' :: cs).takeWhile (fun x => !(Tokenizer.isBreak x))
           let rest := ('-' :: cs).dropWhile (fun x => !(Tokenizer.isBreak x))
           let kind := if Tokenizer.looksLikeKey rest then TokenType.KEY else TokenType.VALUE
           (Tokenizer.tokenizeLoop fuel line (col + value.length) rest).map
             (fun ts => { type := kind, value := value, line := line, column := col } :: ts)) ∧
        (∀ rest2 : List Char,
          (if Tokenizer.looksLikeKey rest2 then TokenType.KEY else TokenType.VALUE) ≠
            TokenType.DASH)) ∧
      (Tokenizer.dashStartsNumber cs = false →
        Tokenizer.tokenizeLoop (fuel + 1) line col ('-' :: cs) =
          (Tokenizer.tokenizeLoop fuel line (col + 1 + (cs.takeWhile Tokenizer.isBlank).length)
            (cs.dropWhile Tokenizer.isBlank)).map
            (fun ts => { type := .DASH, value := ['-'], line := line, column := col } :: ts)) := by
  intro fuel line col cs
  constructor
  · intro h
    constructor
    · simp only [Tokenizer.tokenizeLoop]
      simp +decide [h, List.takeWhile_cons, List.dropWhile_cons]
    · intro rest2
      split <;> simp
  · intro h
    simp only [Tokenizer.tokenizeLoop]
    simp +decide [h]

/-- Witness for claim C8: both lookahead outcomes at concrete inputs — a dash before
"1" reads as an unquoted value, a dash before " x" emits DASH and swallows the
blank. -/
theorem C8_dash_lookahead_witness :
    Tokenizer.dashStartsNumber "1".data = true ∧
    (Tokenizer.tokenizeLoop 10 1 1 ('-' :: "1".data) =
      (let value := ('-' :: "1".data).takeWhile (fun x => !(Tokenizer.isBreak x))
       let rest := ('-' :: "1".data).dropWhile (fun x => !(Tokenizer.isBreak x))
       let kind := if Tokenizer.looksLikeKey rest then TokenType.KEY else TokenType.VALUE
       (Tokenizer.tokenizeLoop 9 1 (1 + value.length) rest).map
         (fun ts => { type := kind, value := value, line := 1, column := 1 } :: ts))) ∧
    Tokenizer.dashStartsNumber " x".data = false ∧
    Tokenizer.tokenizeLoop 10 1 1 ('-' :: " x".data) =
      (Tokenizer.tokenizeLoop 9 1 (1 + 1 + (" x".data.takeWhile Tokenizer.isBlank).length)
        (" x".data.dropWhile Tokenizer.isBlank)).map
        (fun ts => { type := .DASH, value := ['-'], line := 1, column := 1 } :: ts) :=
  ⟨rfl, ((C8_dash_lookahead 9 1 1 "1".data).1 rfl).1, rfl,
    (C8_dash_lookahead 9 1 1 " x".data).2 rfl⟩

/-! Claim C9. -/

/-- A concrete array node with two items of different shapes (a string and a number)
used to exhibit exhaustive error accumulation. -/
def c9Node : AST :=
  .arrn [.prim (.s "x".data) .string false ⟨1, 2, none, none, none⟩,
    .prim (.n ⟨1, 0⟩) .number false ⟨1, 3, none, none, none⟩] (some .inline)
    ⟨1, 1, none, none, none⟩

/-- An array schema demanding string items (with the default uniformity check). -/
def c9Schema : Validator.PropertySchema := .array (.mk none (some .string))

/-- Claim C9: validation reports instead of raising — validate always returns a
result record (it is a total function of the embedding), whose valid flag is true
exactly when the error list is empty, for every node and every (or no) schema; and
validation is exhaustive: on a node with two independent mismatches it accumulates
both error entries, each carrying a path, line and column, rather than stopping at
the first. -/
theorem C9_validation_reports :
    (∀ (node : AST) (schema : Option Validator.PropertySchema),
      (Validator.validate node schema).valid = true ↔
        (Validator.validate node schema).errors = []) ∧
    Validator.validate c9Node (some c9Schema) =
      { valid := false,
        errors := [⟨"Array items must have uniform structure", [], 1, 1⟩,
          ⟨"Expected string, got primitive", "[1]".data, 1, 3⟩] } := by
  constructor
  · intro node schema
    simp only [Validator.validate]
    cases (match schema with
      | some s => Validator.validateNode Validator.validateFuel node s []
      | none => Validator.validateStructure Validator.validateFuel node []) <;> simp
  · rfl

end CJSON
